import Mathlib

/-!
Verification of the Spider-Tracker husbandry web application.

The development shallowly embeds the SQLite-backed data model and the
route handlers of `app.py`:

* the four tables (`batches`, `spiders`, `spiderlog`, `highlights`) become
  lists of records inside a `DB` structure carrying the AUTOINCREMENT
  counters;
* the route handlers `create_batch`, `delete_batch`, `save_spiderlog`,
  `bulk_apply`, `set_highlight` and `set_last_fed` become pure functions
  `DB → inputs → DB × response`;
* `datetime.strptime(day, "%Y-%m-%d")` becomes `parseDay`, mirroring the
  CPython `_strptime` regular expression (a four-digit year, one- or
  two-digit month and day) followed by `datetime.date` range validation;
* the proleptic Gregorian calendar used by `datetime.date` is modelled by
  the rata-die count `rataDie` (day 1 = 0001-01-01, a Monday), and
  `calendar.Calendar(firstweekday=6).monthdatescalendar` becomes
  `monthGrid`;
* SQLite's `BETWEEN` on TEXT columns (a memcmp comparison) becomes
  `byteLe` on the underlying character lists.
-/

/-! ## Characters, digits and integer parsing -/

/-- Value of a decimal digit character, if it is one. -/
def digitVal (c : Char) : Option Nat :=
  if 48 ≤ c.toNat ∧ c.toNat ≤ 57 then some (c.toNat - 48) else none

/-- Value of a nonempty all-digit character list. -/
def digitsVal : List Char → Option Nat
  | [] => none
  | [c] => digitVal c
  | c :: rest => do
    let d ← digitVal c
    let r ← digitsVal rest
    pure (d * 10 ^ rest.length + r)

/-- Model of Python `int(s)` on plain decimal literals: an optional sign
followed by at least one digit.  (Surrounding whitespace and `_` digit
separators, which CPython also accepts, are not modelled; the routes only
ever receive plain literals in the claims.)  Any other input raises, which
the callers turn into their `except` default. -/
def parseInt (s : String) : Option Int :=
  match s.data with
  | '-' :: rest => (digitsVal rest).map (fun n => -(n : Int))
  | '+' :: rest => (digitsVal rest).map (fun n => (n : Int))
  | l => (digitsVal l).map (fun n => (n : Int))

/-! ## The proleptic Gregorian calendar (as in `datetime.date`) -/

/-- Gregorian leap year test, as in `calendar.isleap`. -/
def isLeap (y : Nat) : Bool :=
  (y % 4 == 0 && y % 100 != 0) || y % 400 == 0

/-- Length of month `m` (1–12) given the leap flag. -/
def monthLen (leap : Bool) (m : Nat) : Nat :=
  match m with
  | 1 => 31
  | 2 => if leap then 29 else 28
  | 3 => 31
  | 4 => 30
  | 5 => 31
  | 6 => 30
  | 7 => 31
  | 8 => 31
  | 9 => 30
  | 10 => 31
  | 11 => 30
  | 12 => 31
  | _ => 0

/-- Days in the year strictly before month `m` (1–12). -/
def monthOffset (leap : Bool) (m : Nat) : Nat :=
  (match m with
   | 1 => 0
   | 2 => 31
   | 3 => 59
   | 4 => 90
   | 5 => 120
   | 6 => 151
   | 7 => 181
   | 8 => 212
   | 9 => 243
   | 10 => 273
   | 11 => 304
   | 12 => 334
   | _ => 365) + (if 3 ≤ m ∧ leap = true then 1 else 0)

/-- Days strictly before January 1 of year `y` (proleptic Gregorian),
as in `datetime.date.toordinal`. -/
def daysBeforeYear (y : Nat) : Nat :=
  365 * (y - 1) + (y - 1) / 4 + (y - 1) / 400 - (y - 1) / 100

/-- A calendar date as a year/month/day triple. -/
structure Date where
  y : Nat
  m : Nat
  d : Nat
deriving DecidableEq, Repr

/-- Number of days in month `m` of year `y`. -/
def daysInMonth (y m : Nat) : Nat := monthLen (isLeap y) m

/-- `datetime.date.toordinal`: day 1 is 0001-01-01. -/
def rataDie (t : Date) : Nat :=
  daysBeforeYear t.y + monthOffset (isLeap t.y) t.m + t.d

/-- In-range date (the `datetime.date` constructor check, without the
upper year bound, which only the string layer needs). -/
def validDate (t : Date) : Prop :=
  1 ≤ t.y ∧ 1 ≤ t.m ∧ t.m ≤ 12 ∧ 1 ≤ t.d ∧ t.d ≤ daysInMonth t.y t.m

instance (t : Date) : Decidable (validDate t) := by
  unfold validDate; infer_instance

/-- The day after `t` (`date + timedelta(days=1)`). -/
def nextDate (t : Date) : Date :=
  if t.d < daysInMonth t.y t.m then ⟨t.y, t.m, t.d + 1⟩
  else if t.m < 12 then ⟨t.y, t.m + 1, 1⟩
  else ⟨t.y + 1, 1, 1⟩

/-- The day before `t` (`date - timedelta(days=1)`). -/
def prevDate (t : Date) : Date :=
  if 1 < t.d then ⟨t.y, t.m, t.d - 1⟩
  else if 1 < t.m then ⟨t.y, t.m - 1, daysInMonth t.y (t.m - 1)⟩
  else ⟨t.y - 1, 12, 31⟩

/-- `date.weekday()`: Monday = 0 … Sunday = 6. -/
def weekday (t : Date) : Nat := (rataDie t + 6) % 7

/-! ## `strptime("%Y-%m-%d")` followed by `date()` validation

CPython's `_strptime` compiles `%Y-%m-%d` to the regular expression
`(\d\d\d\d)-(1[0-2]|0[1-9]|[1-9])-(3[01]|[12]\d|0[1-9]|[1-9])`:
the year takes exactly four digits, while month and day may be written
with one digit or two.  `datetime.date` then checks the ranges. -/

/-- Parse the month/day tail `m-d` of a day string (one- or two-digit
month and day, separated and terminated exactly as in the pattern). -/
def parseMonthDay : List Char → Option (Nat × Nat)
  | [m1, '-', d1] => do
    let mv ← digitVal m1
    let dv ← digitVal d1
    pure (mv, dv)
  | [m1, '-', d1, d2] => do
    let mv ← digitVal m1
    let dv1 ← digitVal d1
    let dv2 ← digitVal d2
    pure (mv, dv1 * 10 + dv2)
  | [m1, m2, '-', d1] => do
    let mv1 ← digitVal m1
    let mv2 ← digitVal m2
    let dv ← digitVal d1
    pure (mv1 * 10 + mv2, dv)
  | [m1, m2, '-', d1, d2] => do
    let mv1 ← digitVal m1
    let mv2 ← digitVal m2
    let dv1 ← digitVal d1
    let dv2 ← digitVal d2
    pure (mv1 * 10 + mv2, dv1 * 10 + dv2)
  | _ => none

/-- Model of `datetime.strptime(day, "%Y-%m-%d")`: four-digit year,
dash, month, dash, day, end of string, then the `date` range check
(year ≥ 1, month 1–12, day within the month). -/
def parseDay (s : String) : Option Date :=
  match s.data with
  | y1 :: y2 :: y3 :: y4 :: '-' :: rest => do
    let a ← digitVal y1
    let b ← digitVal y2
    let c ← digitVal y3
    let d ← digitVal y4
    let (mv, dv) ← parseMonthDay rest
    let t : Date := ⟨a * 1000 + b * 100 + c * 10 + d, mv, dv⟩
    if validDate t then pure t else none
  | _ => none

/-! ## ISO formatting and SQLite TEXT comparison -/

/-- The decimal digit character for `n ≤ 9`. -/
def dChar (n : Nat) : Char := Char.ofNat (48 + n)

/-- Two-digit zero-padded decimal rendering (`%02d` for `n ≤ 99`). -/
def pad2 (n : Nat) : List Char := [dChar (n / 10), dChar (n % 10)]

/-- `date.isoformat()`: `%04d-%02d-%02d`, the four-digit year written as
two two-digit halves. -/
def isoChars (t : Date) : List Char :=
  pad2 (t.y / 100) ++ (pad2 (t.y % 100) ++ ('-' :: (pad2 t.m ++ ('-' :: (pad2 t.d ++ [])))))

/-- `date.isoformat()` as a string. -/
def isoStr (t : Date) : String := String.mk (isoChars t)

/-- SQLite's default TEXT ordering (memcmp on the encoded bytes; all day
strings are ASCII, so bytes coincide with characters). -/
def byteLe : List Char → List Char → Bool
  | [], _ => true
  | _ :: _, [] => false
  | a :: as, b :: bs =>
    a.toNat < b.toNat || (a.toNat == b.toNat && byteLe as bs)

/-- String comparison as SQLite's `BETWEEN` performs it. -/
def strLe (a b : String) : Bool := byteLe a.data b.data

/-- Python's `str.strip()`: drop leading and trailing whitespace. -/
def pyStrip (s : String) : String :=
  String.mk ((((s.data.dropWhile Char.isWhitespace).reverse.dropWhile
    Char.isWhitespace).reverse))

/-! ## The data model (`init_db_once` schema) -/

/-- A row of `batches` (`id INTEGER PRIMARY KEY AUTOINCREMENT`,
`name TEXT NOT NULL`, `last_fed_color TEXT DEFAULT ''`). -/
structure BatchRow where
  id : Int
  name : String
  last_fed_color : String
deriving DecidableEq, Repr

/-- A row of `spiders` (`id` autoincrement, `batch_id`, `number`,
`name`, `UNIQUE(batch_id, number)`). -/
structure SpiderRow where
  id : Int
  batch_id : Int
  number : Int
  name : String
deriving DecidableEq, Repr

/-- A row of `spiderlog` (`PRIMARY KEY (spider_id, day)`). -/
structure LogRow where
  spider_id : Int
  day : String
  fed : String
  ate : String
  watered : String
  molting : String
  molts_count : Int
  notes : String
  booty : Int
deriving DecidableEq, Repr

/-- A row of `highlights` (`spider_id INTEGER PRIMARY KEY`). -/
structure HighlightRow where
  spider_id : Int
  color : String
deriving DecidableEq, Repr

/-- The whole store.  The two counters model the AUTOINCREMENT
sequences, which never reuse an id after a delete. -/
structure DB where
  next_batch_id : Int
  next_spider_id : Int
  batches : List BatchRow
  spiders : List SpiderRow
  spiderlog : List LogRow
  highlights : List HighlightRow
deriving DecidableEq, Repr

/-- Integrity of a store: the schema's PRIMARY KEY / UNIQUE constraints
hold, ids are below the AUTOINCREMENT counters, and every spider's owning
batch exists (spiders are only ever created together with their batch and
deleted together with it). -/
def WF (db : DB) : Prop :=
  (db.batches.map (·.id)).Nodup ∧
  (db.spiders.map (·.id)).Nodup ∧
  (db.spiders.map (fun s => (s.batch_id, s.number))).Nodup ∧
  (db.spiderlog.map (fun r => (r.spider_id, r.day))).Nodup ∧
  (db.highlights.map (·.spider_id)).Nodup ∧
  (∀ b ∈ db.batches, b.id < db.next_batch_id) ∧
  (∀ s ∈ db.spiders, s.id < db.next_spider_id) ∧
  (∀ s ∈ db.spiders, s.batch_id < db.next_batch_id) ∧
  (∀ s ∈ db.spiders, s.batch_id ∈ db.batches.map (·.id))

instance (db : DB) : Decidable (WF db) := by
  unfold WF; infer_instance

/-- The fixed highlight palette `COLOR_OPTIONS`. -/
def COLOR_OPTIONS : List String :=
  ["#ef4444", "#f97316", "#f59e0b", "#22c55e", "#06b6d4",
   "#3b82f6", "#8b5cf6", "#ec4899", "#111827", "#94a3b8"]

/-! ## Route handlers -/

/-- Responses of the handlers, as far as the claims observe them. -/
inductive Resp where
  | redirect (batch_id : Int) (day : String)
  | redirectBatches
  | notFound
  | badRequest (msg : String)
  | okText
  | okJson (count : Nat)
deriving DecidableEq, Repr

/-- `INSERT OR IGNORE INTO spiders (batch_id, number, name) VALUES (?, ?, '')`:
a no-op when a row with the same `(batch_id, number)` already exists. -/
def insertSpiderIgnore (db : DB) (bid n : Int) : DB :=
  if db.spiders.any (fun s => s.batch_id == bid && s.number == n) then db
  else
    { db with
      spiders := db.spiders ++ [⟨db.next_spider_id, bid, n, ""⟩],
      next_spider_id := db.next_spider_id + 1 }

/-- Route `POST /create_batch`: strip the name, parse the count
(`except` → 0), bail out to the batch list on an empty name or a count
below 1, otherwise insert the batch row and spiders numbered 1..count. -/
def create_batch (db : DB) (name count_raw : String) : DB × Resp :=
  let name := pyStrip name
  if name = "" then (db, .redirectBatches)
  else
    let count := (parseInt (pyStrip count_raw)).getD 0
    if count < 1 then (db, .redirectBatches)
    else
      let bid := db.next_batch_id
      let db1 := { db with
        batches := db.batches ++ [⟨bid, name, ""⟩],
        next_batch_id := db.next_batch_id + 1 }
      let db2 := ((List.range count.toNat).map (fun n => Int.ofNat n + 1)).foldl
        (fun d n => insertSpiderIgnore d bid n) db1
      (db2, .redirect bid "")

/-- Route `GET /delete_batch/<batch_id>`: collect the batch's spider ids,
delete their `spiderlog` and `highlights` rows (the two `DELETE`
statements only run when the id list is nonempty), then the spiders,
then the batch row. -/
def delete_batch (db : DB) (bid : Int) : DB :=
  let sids := (db.spiders.filter (fun s => s.batch_id == bid)).map (·.id)
  let log1 := if sids.isEmpty then db.spiderlog
              else db.spiderlog.filter (fun r => !(sids.contains r.spider_id))
  let hl1 := if sids.isEmpty then db.highlights
             else db.highlights.filter (fun h => !(sids.contains h.spider_id))
  { db with
    spiderlog := log1,
    highlights := hl1,
    spiders := db.spiders.filter (fun s => !(s.batch_id == bid)),
    batches := db.batches.filter (fun b => !(b.id == bid)) }

/-- The form fields of `save_spiderlog`; `none` models an absent field,
for which `request.form.get` supplies the shown default. -/
structure LogForm where
  fed : Option String := none
  ate : Option String := none
  watered : Option String := none
  molting : Option String := none
  notes : Option String := none
  molts_count : Option String := none
  booty : Option String := none
deriving Repr

/-- The validated row `save_spiderlog` hands to its `INSERT … ON
CONFLICT(spider_id, day) DO UPDATE` statement: absent yes/no fields
default to `"no"`, `molts_count` parses with `except`-default 0, `booty`
parses with `except`-default 3 and is clamped by `max(1, min(5, booty))`. -/
def logRowOf (sid : Int) (day : String) (f : LogForm) : LogRow :=
  { spider_id := sid
    day := day
    fed := f.fed.getD "no"
    ate := f.ate.getD "no"
    watered := f.watered.getD "no"
    molting := f.molting.getD "no"
    molts_count := (parseInt (f.molts_count.getD "0")).getD 0
    notes := f.notes.getD ""
    booty := max 1 (min 5 ((parseInt (f.booty.getD "3")).getD 3)) }

/-- The `(spider_id, day)` primary-key test of `spiderlog`. -/
def keyMatch (sid : Int) (day : String) (x : LogRow) : Bool :=
  x.spider_id == sid && x.day == day

/-- `INSERT … ON CONFLICT(spider_id, day) DO UPDATE SET …=excluded.…`:
replace the row with the conflicting key if there is one, otherwise
append. -/
def upsertLog (l : List LogRow) (r : LogRow) : List LogRow :=
  if l.any (keyMatch r.spider_id r.day) then
    l.map (fun x => if keyMatch r.spider_id r.day x then r else x)
  else l ++ [r]

/-- Route `POST /spiderlog/<spider_id>/<day>`: 404 on a malformed day,
404 when the spider does not exist (nothing written), otherwise upsert
the validated row and redirect to the owning batch's day view. -/
def save_spiderlog (db : DB) (sid : Int) (day : String) (f : LogForm) : DB × Resp :=
  match parseDay day with
  | none => (db, .notFound)
  | some _ =>
    match db.spiders.find? (fun s => s.id == sid) with
    | none => (db, .notFound)
    | some s =>
      ({ db with spiderlog := upsertLog db.spiderlog (logRowOf sid day f) },
       .redirect s.batch_id day)

/-- The JSON body of `bulk_apply`; `none` models an absent key, for which
`data.get` supplies the shown default.  `molts_count` and `booty` arrive
as JSON numbers (`int(...)` passes integers through unchanged). -/
structure BulkReq where
  spider_ids : List Int := []
  fed : Option String := none
  ate : Option String := none
  watered : Option String := none
  molting : Option String := none
  notes : Option String := none
  molts_count : Option Int := none
  booty : Option Int := none
deriving Repr

/-- The row `bulk_apply` writes for one target spider. -/
def bulkRowOf (sid : Int) (day : String) (req : BulkReq) : LogRow :=
  { spider_id := sid
    day := day
    fed := req.fed.getD "no"
    ate := req.ate.getD "no"
    watered := req.watered.getD "no"
    molting := req.molting.getD "no"
    molts_count := req.molts_count.getD 0
    notes := req.notes.getD ""
    booty := max 1 (min 5 (req.booty.getD 3)) }

/-- The ids `bulk_apply` actually targets: `SELECT id FROM spiders WHERE
batch_id=? AND id IN (…)` — a scan of the `spiders` table, so each owned
spider appears at most once however often it occurs in the request. -/
def bulkValidIds (db : DB) (bid : Int) (ids : List Int) : List Int :=
  (db.spiders.filter (fun s => s.batch_id == bid && ids.contains s.id)).map (·.id)

/-- Route `POST /bulk_apply/<batch_id>/<day>`: 400 on a malformed day or
an empty selection, filter the requested ids to those owned by the batch,
400 (with nothing written) when none remain, otherwise upsert the same
validated row for each remaining id and answer `{ok, count}`. -/
def bulk_apply (db : DB) (bid : Int) (day : String) (req : BulkReq) : DB × Resp :=
  match parseDay day with
  | none => (db, .badRequest "bad day")
  | some _ =>
    if req.spider_ids.isEmpty then (db, .badRequest "no spiders selected")
    else
      let valid := bulkValidIds db bid req.spider_ids
      if valid.isEmpty then (db, .badRequest "no valid spiders")
      else
        ({ db with
           spiderlog := valid.foldl (fun acc sid => upsertLog acc (bulkRowOf sid day req)) db.spiderlog },
         .okJson valid.length)

/-- Route `POST /set_highlight`: parse the spider id (`except` → 400),
reject a nonempty color outside the palette, then upsert the highlight
row keyed by `spider_id` — without checking that the spider exists. -/
def set_highlight (db : DB) (spider_id_raw color_raw : String) : DB × Resp :=
  match parseInt spider_id_raw with
  | none => (db, .badRequest "bad spider_id")
  | some sid =>
    let color := pyStrip color_raw
    if color ≠ "" ∧ ¬ color ∈ COLOR_OPTIONS then (db, .badRequest "bad color")
    else
      let hl :=
        if db.highlights.any (fun h => h.spider_id == sid) then
          db.highlights.map (fun h => if h.spider_id == sid then ⟨sid, color⟩ else h)
        else db.highlights ++ [⟨sid, color⟩]
      ({ db with highlights := hl }, .okText)

/-- Route `POST /set_last_fed`: parse the batch id (`except` → 400),
reject a nonempty color outside the palette, then `UPDATE batches SET
last_fed_color=? WHERE id=?` — an update of zero rows when the batch
does not exist, still answered `ok`. -/
def set_last_fed (db : DB) (batch_id_raw color_raw : String) : DB × Resp :=
  match parseInt batch_id_raw with
  | none => (db, .badRequest "bad batch_id")
  | some bid =>
    let color := pyStrip color_raw
    if color ≠ "" ∧ ¬ color ∈ COLOR_OPTIONS then (db, .badRequest "bad color")
    else
      ({ db with
         batches := db.batches.map (fun b => if b.id == bid then { b with last_fed_color := color } else b) },
       .okText)

/-! ## The calendar view (`calendar.Calendar(firstweekday=6)`) -/

/-- Split a list into the 7-element rows `monthdatescalendar` returns
(`[dates[i:i+7] for i in range(0, len(dates), 7)]`). -/
def chunk7 : List α → List (List α)
  | [] => []
  | [a] => [[a]]
  | [a, b] => [[a, b]]
  | [a, b, c] => [[a, b, c]]
  | [a, b, c, d] => [[a, b, c, d]]
  | [a, b, c, d, e] => [[a, b, c, d, e]]
  | [a, b, c, d, e, f] => [[a, b, c, d, e, f]]
  | a :: b :: c :: d :: e :: f :: g :: rest => [a, b, c, d, e, f, g] :: chunk7 rest

/-- Leading pad of the grid: Python's `(first.weekday() - 6) % 7`,
written with a nonnegative representative of the same residue. -/
def gridBefore (y m : Nat) : Nat := (weekday ⟨y, m, 1⟩ + 1) % 7

/-- Trailing pad of the grid: Python's `(6 - first.weekday() - ndays) % 7`,
written with a nonnegative representative of the same residue
(`48 ≡ 6 [MOD 7]`). -/
def gridAfter (y m : Nat) : Nat :=
  (48 - weekday ⟨y, m, 1⟩ - daysInMonth y m % 7) % 7

/-- Total number of dates the grid shows. -/
def monthGridLen (y m : Nat) : Nat :=
  gridBefore y m + daysInMonth y m + gridAfter y m

/-- First date of the grid: the 1st of the month stepped back over the
leading pad. -/
def monthGridStart (y m : Nat) : Date :=
  Nat.iterate prevDate (gridBefore y m) ⟨y, m, 1⟩

/-- All dates `itermonthdates` yields, in order. -/
def monthGridDates (y m : Nat) : List Date :=
  (List.range (monthGridLen y m)).map
    (fun i => Nat.iterate nextDate i (monthGridStart y m))

/-- `Calendar(firstweekday=6).monthdatescalendar(year, month)`. -/
def monthGrid (y m : Nat) : List (List Date) :=
  chunk7 (monthGridDates y m)

/-- The `has_data_days` query of `calendar_view`: the distinct `day`
strings of `spiderlog` rows lying `BETWEEN` the ISO strings of the
grid's first and last dates and belonging to a spider of the batch. -/
def calendarHasData (db : DB) (bid : Int) (y m : Nat) : List String :=
  match (monthGrid y m).head?, (monthGrid y m).getLast? with
  | some w0, some wl =>
    match w0.head?, wl.getLast? with
    | some d0, some dl =>
      ((db.spiderlog.filter (fun r =>
          strLe (isoStr d0) r.day && strLe r.day (isoStr dl) &&
          db.spiders.any (fun s => s.id == r.spider_id && s.batch_id == bid))).map
        (·.day)).dedup
    | _, _ => []
  | _, _ => []

/-! ## Lemmas about the `spiderlog` upsert -/

/-- Key of a `spiderlog` row. -/
def logKey (r : LogRow) : Int × String := (r.spider_id, r.day)

theorem keyMatch_iff (sid : Int) (day : String) (x : LogRow) :
    keyMatch sid day x = true ↔ x.spider_id = sid ∧ x.day = day := by
  simp [keyMatch]

theorem keyMatch_iff_logKey (r x : LogRow) :
    keyMatch r.spider_id r.day x = true ↔ logKey x = logKey r := by
  simp [keyMatch, logKey, Prod.ext_iff]

theorem keyMatch_self (r : LogRow) : keyMatch r.spider_id r.day r = true := by
  simp [keyMatch]

theorem keyMatch_false_of_ne (sid : Int) (day : String) (r : LogRow)
    (hne : ¬ (r.spider_id = sid ∧ r.day = day)) : keyMatch sid day r = false := by
  by_cases h : keyMatch sid day r = true
  · exact absurd ((keyMatch_iff sid day r).mp h) hne
  · exact Bool.eq_false_iff.mpr h

/-- Replacing the unique key-matching row: filtering by that key
afterwards yields just the replacement. -/
theorem filter_replace_self (l : List LogRow) (r : LogRow)
    (h : (l.map logKey).Nodup) (hany : l.any (keyMatch r.spider_id r.day) = true) :
    (l.map (fun x => if keyMatch r.spider_id r.day x then r else x)).filter
      (keyMatch r.spider_id r.day) = [r] := by
  induction l with
  | nil => simp at hany
  | cons a l ih =>
    simp only [List.map_cons, List.nodup_cons] at h
    by_cases ha : keyMatch r.spider_id r.day a = true
    · have htail : (l.map (fun x => if keyMatch r.spider_id r.day x then r else x)).filter
          (keyMatch r.spider_id r.day) = [] := by
        refine List.filter_eq_nil_iff.mpr ?_
        intro x hx
        rcases List.mem_map.mp hx with ⟨x0, hx0, rfl⟩
        by_cases hx0k : keyMatch r.spider_id r.day x0 = true
        · intro _
          have hka : logKey a = logKey r := (keyMatch_iff_logKey r a).mp ha
          have hk0 : logKey x0 = logKey r := (keyMatch_iff_logKey r x0).mp hx0k
          exact h.1 ((hk0.trans hka.symm) ▸ List.mem_map_of_mem logKey hx0)
        · simp only [hx0k, if_false]
          exact fun hc => hx0k hc
      simp [ha, keyMatch_self, htail]
    · have hany' : l.any (keyMatch r.spider_id r.day) = true := by
        rcases List.any_eq_true.mp hany with ⟨x, hx, hxk⟩
        rcases List.mem_cons.mp hx with rfl | hxl
        · exact absurd hxk ha
        · exact List.any_eq_true.mpr ⟨x, hxl, hxk⟩
      simp only [List.map_cons, ha, if_false, List.filter_cons,
        Bool.eq_false_iff.mpr ha]
      simpa [Bool.eq_false_iff.mpr ha] using ih h.2 hany'

/-- Replacing the row with `r`'s key leaves rows with any other key
untouched. -/
theorem filter_replace_other (l : List LogRow) (r : LogRow) (sid : Int) (day : String)
    (hne : ¬ (r.spider_id = sid ∧ r.day = day)) :
    (l.map (fun x => if keyMatch r.spider_id r.day x then r else x)).filter
      (keyMatch sid day) = l.filter (keyMatch sid day) := by
  have hr : keyMatch sid day r = false := keyMatch_false_of_ne sid day r hne
  induction l with
  | nil => rfl
  | cons a l ih =>
    by_cases ha : keyMatch r.spider_id r.day a = true
    · have hka : logKey a = logKey r := (keyMatch_iff_logKey r a).mp ha
      have haf : keyMatch sid day a = false := by
        refine keyMatch_false_of_ne sid day a ?_
        simp only [logKey, Prod.mk.injEq] at hka
        intro hc
        exact hne ⟨hka.1 ▸ hc.1, hka.2 ▸ hc.2⟩
      simp [ha, hr, haf, ih]
    · by_cases haf : keyMatch sid day a = true <;>
        simp [ha, haf, ih]

/-- After an upsert there is exactly one row with the new row's key,
namely the new row itself. -/
theorem upsertLog_filter_self (l : List LogRow) (r : LogRow)
    (h : (l.map logKey).Nodup) :
    (upsertLog l r).filter (keyMatch r.spider_id r.day) = [r] := by
  unfold upsertLog
  by_cases hany : l.any (keyMatch r.spider_id r.day) = true
  · rw [if_pos hany]
    exact filter_replace_self l r h hany
  · rw [if_neg hany, List.filter_append]
    rw [List.filter_eq_nil_iff.mpr (by
      intro x hx hk
      exact hany (List.any_eq_true.mpr ⟨x, hx, hk⟩))]
    simp [keyMatch_self]

/-- An upsert leaves rows with any other key untouched. -/
theorem upsertLog_filter_other (l : List LogRow) (r : LogRow) (sid : Int) (day : String)
    (hne : ¬ (r.spider_id = sid ∧ r.day = day)) :
    (upsertLog l r).filter (keyMatch sid day) = l.filter (keyMatch sid day) := by
  unfold upsertLog
  by_cases hany : l.any (keyMatch r.spider_id r.day) = true
  · rw [if_pos hany]
    exact filter_replace_other l r sid day hne
  · rw [if_neg hany, List.filter_append]
    simp [keyMatch_false_of_ne sid day r hne]

/-- Every row after an upsert is an old row or the new row. -/
theorem upsertLog_mem (l : List LogRow) (r : LogRow) :
    ∀ x ∈ upsertLog l r, x ∈ l ∨ x = r := by
  intro x hx
  unfold upsertLog at hx
  by_cases hany : l.any (keyMatch r.spider_id r.day) = true
  · rw [if_pos hany] at hx
    rcases List.mem_map.mp hx with ⟨x0, hx0, rfl⟩
    by_cases hx0k : keyMatch r.spider_id r.day x0 = true
    · simp [hx0k]
    · simp only [hx0k, if_false]
      exact Or.inl hx0
  · rw [if_neg hany] at hx
    simpa using hx

/-- An upsert never introduces a duplicate key. -/
theorem upsertLog_nodup (l : List LogRow) (r : LogRow)
    (h : (l.map logKey).Nodup) : ((upsertLog l r).map logKey).Nodup := by
  unfold upsertLog
  by_cases hany : l.any (keyMatch r.spider_id r.day) = true
  · rw [if_pos hany]
    have hmapkey : (l.map (fun x => if keyMatch r.spider_id r.day x then r else x)).map logKey
        = l.map logKey := by
      rw [List.map_map]
      refine List.map_congr_left ?_
      intro x _
      by_cases hx : keyMatch r.spider_id r.day x = true
      · simp [Function.comp, hx, (keyMatch_iff_logKey r x).mp hx]
      · simp [Function.comp, hx]
    rw [hmapkey]
    exact h
  · rw [if_neg hany, List.map_append, List.map_singleton, List.nodup_append]
    refine ⟨h, List.nodup_singleton _, ?_⟩
    intro k hk hk'
    simp only [List.mem_singleton] at hk'
    rcases List.mem_map.mp hk with ⟨x, hxl, hxk⟩
    exact hany (List.any_eq_true.mpr
      ⟨x, hxl, (keyMatch_iff_logKey r x).mpr (hxk.trans hk')⟩)

/-! ## Claim C1: the single-spider day-log upsert -/

/-- One `save_spiderlog` call viewed as a state transformer. -/
def saveStep (sid : Int) (day : String) (db : DB) (f : LogForm) : DB :=
  (save_spiderlog db sid day f).1

theorem saveStep_spiders (db : DB) (sid : Int) (day : String) (f : LogForm) :
    (saveStep sid day db f).spiders = db.spiders := by
  unfold saveStep save_spiderlog
  cases h : parseDay day
  · rfl
  · cases h2 : db.spiders.find? (fun s => s.id == sid) <;> rfl

theorem saveStep_eq (db : DB) (sid : Int) (day : String) (f : LogForm)
    (hday : (parseDay day).isSome = true)
    (hsp : (db.spiders.find? (fun s => s.id == sid)).isSome = true) :
    saveStep sid day db f =
      { db with spiderlog := upsertLog db.spiderlog (logRowOf sid day f) } := by
  obtain ⟨t, ht⟩ := Option.isSome_iff_exists.mp hday
  obtain ⟨s, hs⟩ := Option.isSome_iff_exists.mp hsp
  unfold saveStep save_spiderlog
  rw [ht, hs]

theorem WF_upsert_log (db : DB) (r : LogRow) (hwf : WF db) :
    WF { db with spiderlog := upsertLog db.spiderlog r } := by
  obtain ⟨h1, h2, h3, h4, h5, h6, h7, h8, h9⟩ := hwf
  exact ⟨h1, h2, h3, upsertLog_nodup _ _ h4, h5, h6, h7, h8, h9⟩

theorem saveStep_WF (db : DB) (sid : Int) (day : String) (f : LogForm)
    (hwf : WF db) (hday : (parseDay day).isSome = true)
    (hsp : (db.spiders.find? (fun s => s.id == sid)).isSome = true) :
    WF (saveStep sid day db f) := by
  rw [saveStep_eq db sid day f hday hsp]
  exact WF_upsert_log db (logRowOf sid day f) hwf

theorem foldl_saveStep_spiders (db : DB) (sid : Int) (day : String) (fs : List LogForm) :
    (fs.foldl (saveStep sid day) db).spiders = db.spiders := by
  induction fs generalizing db with
  | nil => rfl
  | cons f fs ih => rw [List.foldl_cons, ih, saveStep_spiders]

theorem foldl_saveStep_WF (db : DB) (sid : Int) (day : String) (fs : List LogForm)
    (hwf : WF db) (hday : (parseDay day).isSome = true)
    (hsp : (db.spiders.find? (fun s => s.id == sid)).isSome = true) :
    WF (fs.foldl (saveStep sid day) db) := by
  induction fs generalizing db with
  | nil => exact hwf
  | cons f fs ih =>
    rw [List.foldl_cons]
    refine ih (saveStep sid day db f) (saveStep_WF db sid day f hwf hday hsp) ?_
    rw [saveStep_spiders]
    exact hsp

/-- Claim C1.  For every spider id and well-formed day string, any
sequence of `save_spiderlog` calls for the key `(spider_id, day)` on a
well-formed store leaves exactly one `spiderlog` row for that key — the
filter by the key returns the one-element list holding the validated row
of the most recent call, so every field (fed, ate, watered, molting,
molts_count, notes, booty) equals that call's validated inputs — and the
store stays well-formed, so the `(spider_id, day)` primary key is never
duplicated. -/
theorem c1_day_log_upsert (db : DB) (sid : Int) (day : String)
    (fs : List LogForm) (f : LogForm)
    (hwf : WF db) (hday : (parseDay day).isSome = true)
    (hsp : (db.spiders.find? (fun s => s.id == sid)).isSome = true) :
    ((fs ++ [f]).foldl (saveStep sid day) db).spiderlog.filter (keyMatch sid day)
      = [logRowOf sid day f]
    ∧ WF ((fs ++ [f]).foldl (saveStep sid day) db) := by
  have hwf' : WF (fs.foldl (saveStep sid day) db) :=
    foldl_saveStep_WF db sid day fs hwf hday hsp
  have hsp' : ((fs.foldl (saveStep sid day) db).spiders.find?
      (fun s => s.id == sid)).isSome = true := by
    rw [foldl_saveStep_spiders]
    exact hsp
  rw [List.foldl_append, List.foldl_cons, List.foldl_nil]
  constructor
  · rw [saveStep_eq _ sid day f hday hsp']
    have hkey : (upsertLog (fs.foldl (saveStep sid day) db).spiderlog
        (logRowOf sid day f)).filter
          (keyMatch (logRowOf sid day f).spider_id (logRowOf sid day f).day)
        = [logRowOf sid day f] :=
      upsertLog_filter_self _ _ hwf'.2.2.2.1
    simpa [logRowOf] using hkey
  · exact saveStep_WF _ sid day f hwf' hday hsp'

/-- The store used by the concrete witnesses: one batch (id 1) holding
one spider (id 1, number 1). -/
def dbOne : DB :=
  { next_batch_id := 2
    next_spider_id := 2
    batches := [⟨1, "A", ""⟩]
    spiders := [⟨1, 1, 1, ""⟩]
    spiderlog := []
    highlights := [] }

theorem c1_day_log_upsert_witness :
    (WF dbOne ∧ (parseDay "2024-05-01").isSome = true
      ∧ ((dbOne.spiders.find? (fun s => s.id == 1)).isSome = true))
    ∧ (([({ fed := some "no" } : LogForm)] ++
          [({ fed := some "yes", booty := some "4" } : LogForm)]).foldl
            (saveStep 1 "2024-05-01") dbOne).spiderlog.filter (keyMatch 1 "2024-05-01")
        = [logRowOf 1 "2024-05-01" { fed := some "yes", booty := some "4" }]
      ∧ WF (([({ fed := some "no" } : LogForm)] ++
          [({ fed := some "yes", booty := some "4" } : LogForm)]).foldl
            (saveStep 1 "2024-05-01") dbOne) :=
  ⟨⟨by decide, by decide, by decide⟩,
    c1_day_log_upsert dbOne 1 "2024-05-01"
      [{ fed := some "no" }] { fed := some "yes", booty := some "4" }
      (by decide) (by decide) (by decide)⟩

/-! ## Claim C2: batch creation -/

theorem insertSpiderIgnore_batches (db : DB) (bid n : Int) :
    (insertSpiderIgnore db bid n).batches = db.batches := by
  unfold insertSpiderIgnore
  split <;> rfl

theorem foldl_insertSpider_batches (ns : List Int) (d : DB) (bid : Int) :
    (ns.foldl (fun acc n => insertSpiderIgnore acc bid n) d).batches = d.batches := by
  induction ns generalizing d with
  | nil => rfl
  | cons n ns ih => rw [List.foldl_cons, ih, insertSpiderIgnore_batches]

/-- Inserting fresh `(batch, number)` pairs one by one appends exactly
those numbers to the batch's spider list. -/
theorem foldl_insertSpider_numbers (ns : List Int) (d : DB) (bid : Int)
    (h : ∀ n ∈ ns, d.spiders.any (fun s => s.batch_id == bid && s.number == n) = false)
    (hnd : ns.Nodup) :
    ((ns.foldl (fun acc n => insertSpiderIgnore acc bid n) d).spiders.filter
       (fun s => s.batch_id == bid)).map (·.number)
    = ((d.spiders.filter (fun s => s.batch_id == bid)).map (·.number)) ++ ns := by
  induction ns generalizing d with
  | nil => simp
  | cons n ns ih =>
    rw [List.foldl_cons]
    have hstep : insertSpiderIgnore d bid n =
        { d with
          spiders := d.spiders ++ [⟨d.next_spider_id, bid, n, ""⟩],
          next_spider_id := d.next_spider_id + 1 } := by
      unfold insertSpiderIgnore
      rw [if_neg (by rw [h n (List.mem_cons_self n ns)]; exact Bool.false_ne_true)]
    rw [hstep]
    rw [List.nodup_cons] at hnd
    rw [ih _ ?_ hnd.2]
    · simp
    · intro m hm
      refine List.any_eq_false.mpr ?_
      intro s hs
      simp only [List.mem_append, List.mem_singleton] at hs
      rcases hs with hs | rfl
      · have := List.any_eq_false.mp (h m (List.mem_cons_of_mem n hm)) s hs
        simpa using this
      · simp only [Bool.and_eq_true, beq_iff_eq, not_and]
        intro _ hc
        exact hnd.1 (hc ▸ hm)

/-- Claim C2.  For every nonempty (stripped) name and integer count ≥ 1,
`create_batch` creates exactly one batch row with the fresh id and
exactly `count` spider rows owned by it, numbered `1..count` in order —
so with no gaps and no duplicate numbers. -/
theorem c2_create_batch (db : DB) (name count_raw : String) (c : Int)
    (hwf : WF db) (hname : ¬ pyStrip name = "")
    (hc : parseInt (pyStrip count_raw) = some c) (hc1 : 1 ≤ c) :
    ((create_batch db name count_raw).1.batches.filter
        (fun b => b.id == db.next_batch_id)) = [⟨db.next_batch_id, pyStrip name, ""⟩]
    ∧ (((create_batch db name count_raw).1.spiders.filter
        (fun s => s.batch_id == db.next_batch_id)).map (·.number))
      = (List.range c.toNat).map (fun n => Int.ofNat n + 1)
    ∧ (create_batch db name count_raw).2 = .redirect db.next_batch_id "" := by
  obtain ⟨hb1, hb2, hb3, hb4, hb5, hb6, hb7, hb8, hb9⟩ := hwf
  have hcb : create_batch db name count_raw =
      (((List.range c.toNat).map (fun n => Int.ofNat n + 1)).foldl
        (fun d n => insertSpiderIgnore d db.next_batch_id n)
        { db with
          batches := db.batches ++ [⟨db.next_batch_id, pyStrip name, ""⟩],
          next_batch_id := db.next_batch_id + 1 },
       .redirect db.next_batch_id "") := by
    unfold create_batch
    rw [if_neg hname, hc]
    simp only [Option.getD_some]
    rw [if_neg (by omega)]
  rw [hcb]
  refine ⟨?_, ?_, rfl⟩
  · rw [foldl_insertSpider_batches, List.filter_append]
    rw [List.filter_eq_nil_iff.mpr (by
      intro b hb hkb
      have := hb6 b hb
      rw [beq_iff_eq] at hkb
      omega)]
    simp
  · rw [foldl_insertSpider_numbers]
    · rw [List.filter_eq_nil_iff.mpr (by
        intro s hs hks
        have := hb8 s hs
        rw [beq_iff_eq] at hks
        omega)]
      simp
    · intro n _
      refine List.any_eq_false.mpr ?_
      intro s hs
      have := hb8 s hs
      simp only [Bool.and_eq_true, beq_iff_eq, not_and]
      intro hc _
      omega
    · have hinj : Function.Injective (fun n : Nat => (n : Int) + 1) := by
        intro a b hab
        simpa using hab
      exact List.Nodup.map hinj (List.nodup_range c.toNat)

/-- The empty store. -/
def dbEmpty : DB :=
  { next_batch_id := 1
    next_spider_id := 1
    batches := []
    spiders := []
    spiderlog := []
    highlights := [] }

theorem c2_create_batch_witness :
    (WF dbEmpty ∧ ¬ pyStrip "Jumpers" = ""
      ∧ parseInt (pyStrip "3") = some 3 ∧ (1 : Int) ≤ 3)
    ∧ ((create_batch dbEmpty "Jumpers" "3").1.batches.filter
        (fun b => b.id == dbEmpty.next_batch_id)) = [⟨dbEmpty.next_batch_id, pyStrip "Jumpers", ""⟩]
    ∧ (((create_batch dbEmpty "Jumpers" "3").1.spiders.filter
        (fun s => s.batch_id == dbEmpty.next_batch_id)).map (·.number))
      = (List.range (3 : Int).toNat).map (fun n => Int.ofNat n + 1)
    ∧ (create_batch dbEmpty "Jumpers" "3").2 = .redirect dbEmpty.next_batch_id "" :=
  ⟨⟨by decide, by decide, by decide, by decide⟩,
    c2_create_batch dbEmpty "Jumpers" "3" 3 (by decide) (by decide) (by decide) (by decide)⟩

/-! ## Claim C3: batch deletion cascades and is a no-op on unknown ids -/

/-- The spider ids `delete_batch` collects for batch `bid`. -/
def batchSpiderIds (db : DB) (bid : Int) : List Int :=
  (db.spiders.filter (fun s => s.batch_id == bid)).map (·.id)

theorem delete_batch_parts (db : DB) (bid : Int) :
    (delete_batch db bid).batches = db.batches.filter (fun b => !(b.id == bid))
    ∧ (delete_batch db bid).spiders = db.spiders.filter (fun s => !(s.batch_id == bid))
    ∧ (delete_batch db bid).spiderlog =
        (if (batchSpiderIds db bid).isEmpty then db.spiderlog
         else db.spiderlog.filter (fun r => !((batchSpiderIds db bid).contains r.spider_id)))
    ∧ (delete_batch db bid).highlights =
        (if (batchSpiderIds db bid).isEmpty then db.highlights
         else db.highlights.filter (fun h => !((batchSpiderIds db bid).contains h.spider_id))) := by
  unfold delete_batch batchSpiderIds
  exact ⟨rfl, rfl, rfl, rfl⟩

/-- Claim C3.  `delete_batch` removes the batch row, all spiders owned by
it, and every `spiderlog`/`highlights` row of those spiders, so any query
scoped to the batch (such as the day view's log query) returns empty and
no orphaned rows remain; on an id with no batch row the call leaves the
store unchanged. -/
theorem c3_delete_batch (db : DB) (bid : Int) (hwf : WF db) :
    (delete_batch db bid).batches.filter (fun b => b.id == bid) = []
    ∧ (delete_batch db bid).spiders.filter (fun s => s.batch_id == bid) = []
    ∧ (∀ r ∈ (delete_batch db bid).spiderlog, r.spider_id ∉ batchSpiderIds db bid)
    ∧ (∀ h ∈ (delete_batch db bid).highlights, h.spider_id ∉ batchSpiderIds db bid)
    ∧ (∀ day : String, (delete_batch db bid).spiderlog.filter
        (fun r => r.day == day && (delete_batch db bid).spiders.any
          (fun s => s.id == r.spider_id && s.batch_id == bid)) = [])
    ∧ (bid ∉ db.batches.map (·.id) → delete_batch db bid = db) := by
  obtain ⟨hb1, hb2, hb3, hb4, hb5, hb6, hb7, hb8, hb9⟩ := hwf
  obtain ⟨hpb, hps, hpl, hph⟩ := delete_batch_parts db bid
  refine ⟨?_, ?_, ?_, ?_, ?_, ?_⟩
  · rw [hpb]
    refine List.filter_eq_nil_iff.mpr ?_
    intro b hb
    have := (List.mem_filter.mp hb).2
    simpa using this
  · rw [hps]
    refine List.filter_eq_nil_iff.mpr ?_
    intro s hs
    have := (List.mem_filter.mp hs).2
    simpa using this
  · intro r hr hmem
    rw [hpl] at hr
    by_cases hempty : (batchSpiderIds db bid).isEmpty
    · rw [List.isEmpty_iff.mp hempty] at hmem
      exact List.not_mem_nil _ hmem
    · rw [if_neg hempty] at hr
      have := (List.mem_filter.mp hr).2
      simp only [Bool.not_eq_true'] at this
      rw [List.contains_eq_any_beq] at this
      have hfalse := List.any_eq_false.mp this
      exact absurd (by simp [beq_iff_eq]) (hfalse _ hmem)
  · intro h hh hmem
    rw [hph] at hh
    by_cases hempty : (batchSpiderIds db bid).isEmpty
    · rw [List.isEmpty_iff.mp hempty] at hmem
      exact List.not_mem_nil _ hmem
    · rw [if_neg hempty] at hh
      have := (List.mem_filter.mp hh).2
      simp only [Bool.not_eq_true'] at this
      rw [List.contains_eq_any_beq] at this
      have hfalse := List.any_eq_false.mp this
      exact absurd (by simp [beq_iff_eq]) (hfalse _ hmem)
  · intro day
    refine List.filter_eq_nil_iff.mpr ?_
    intro r hr hp
    simp only [Bool.and_eq_true, List.any_eq_true] at hp
    rcases hp.2 with ⟨s, hs, hsk⟩
    rw [hps] at hs
    have hsb := (List.mem_filter.mp hs).2
    simp only [Bool.and_eq_true, beq_iff_eq] at hsk
    simp only [Bool.not_eq_true', beq_eq_false_iff_ne] at hsb
    exact hsb hsk.2
  · intro hnb
    have hsp : db.spiders.filter (fun s => s.batch_id == bid) = [] := by
      refine List.filter_eq_nil_iff.mpr ?_
      intro s hs hc
      rw [beq_iff_eq] at hc
      exact hnb (hc ▸ hb9 s hs)
    have hspall : db.spiders.filter (fun s => !(s.batch_id == bid)) = db.spiders := by
      refine List.filter_eq_self.mpr ?_
      intro s hs
      simp only [Bool.not_eq_true', beq_eq_false_iff_ne]
      intro hc
      exact hnb (hc ▸ hb9 s hs)
    have hball : db.batches.filter (fun b => !(b.id == bid)) = db.batches := by
      refine List.filter_eq_self.mpr ?_
      intro b hb
      simp only [Bool.not_eq_true', beq_eq_false_iff_ne]
      intro hc
      exact hnb (hc ▸ List.mem_map_of_mem (·.id) hb)
    have hempty : (batchSpiderIds db bid).isEmpty = true := by
      unfold batchSpiderIds
      rw [hsp]
      rfl
    have hco : (delete_batch db bid).next_batch_id = db.next_batch_id
        ∧ (delete_batch db bid).next_spider_id = db.next_spider_id := ⟨rfl, rfl⟩
    cases hdb : delete_batch db bid
    rw [hdb] at hpb hps hpl hph hco
    cases db
    simp only at hpb hps hpl hph hco hball hspall hempty
    simp only [DB.mk.injEq]
    rw [if_pos hempty] at hpl
    rw [if_pos hempty] at hph
    exact ⟨hco.1, hco.2, hpb.trans hball, hps.trans hspall, hpl, hph⟩

/-! ## Claims C4 and C10: the bulk upsert -/

theorem bulkValidIds_nodup (db : DB) (bid : Int) (ids : List Int) (hwf : WF db) :
    (bulkValidIds db bid ids).Nodup := by
  obtain ⟨hb1, hb2, hb3, hb4, hb5, hb6, hb7, hb8, hb9⟩ := hwf
  unfold bulkValidIds
  exact List.Nodup.sublist
    (List.Sublist.map _ (List.filter_sublist db.spiders)) hb2

theorem bulkValidIds_mem (db : DB) (bid : Int) (ids : List Int) (i : Int) :
    i ∈ bulkValidIds db bid ids ↔
      ∃ s ∈ db.spiders, s.id = i ∧ s.batch_id = bid ∧ i ∈ ids := by
  unfold bulkValidIds
  simp only [List.mem_map, List.mem_filter, Bool.and_eq_true, beq_iff_eq]
  constructor
  · rintro ⟨s, ⟨hs, hbatch, hmem⟩, rfl⟩
    exact ⟨s, hs, rfl, hbatch, by simpa using hmem⟩
  · rintro ⟨s, hs, rfl, hbatch, hmem⟩
    exact ⟨s, ⟨hs, hbatch, by simpa using hmem⟩, rfl⟩

/-- Upserting rows for keys other than `(i, day)` never disturbs the
rows with key `(i, day)`. -/
theorem foldl_upsert_filter_not_mem (ids : List Int) (l : List LogRow)
    (day : String) (req : BulkReq) (i : Int) (h : i ∉ ids) :
    (ids.foldl (fun acc sid => upsertLog acc (bulkRowOf sid day req)) l).filter
      (keyMatch i day) = l.filter (keyMatch i day) := by
  induction ids generalizing l with
  | nil => rfl
  | cons j ids ih =>
    rw [List.foldl_cons]
    rw [ih _ (fun hc => h (List.mem_cons_of_mem j hc))]
    exact upsertLog_filter_other l (bulkRowOf j day req) i day
      (fun hc => h (hc.1 ▸ List.mem_cons_self j ids))

theorem foldl_upsert_nodup (ids : List Int) (l : List LogRow)
    (day : String) (req : BulkReq) (hl : (l.map logKey).Nodup) :
    (((ids.foldl (fun acc sid => upsertLog acc (bulkRowOf sid day req)) l).map
      logKey)).Nodup := by
  induction ids generalizing l with
  | nil => exact hl
  | cons j ids ih =>
    rw [List.foldl_cons]
    exact ih _ (upsertLog_nodup l (bulkRowOf j day req) hl)

/-- After the bulk loop, each targeted id holds exactly its fresh row. -/
theorem foldl_upsert_filter_mem (ids : List Int) (l : List LogRow)
    (day : String) (req : BulkReq)
    (hl : (l.map logKey).Nodup) (hids : ids.Nodup) :
    ∀ i ∈ ids,
      (ids.foldl (fun acc sid => upsertLog acc (bulkRowOf sid day req)) l).filter
        (keyMatch i day) = [bulkRowOf i day req] := by
  induction ids generalizing l with
  | nil => intro i hi; exact absurd hi (List.not_mem_nil i)
  | cons j ids ih =>
    rw [List.nodup_cons] at hids
    intro i hi
    rw [List.foldl_cons]
    rcases List.mem_cons.mp hi with rfl | hmem
    · rw [foldl_upsert_filter_not_mem ids _ day req i hids.1]
      have := upsertLog_filter_self l (bulkRowOf i day req) hl
      simpa [bulkRowOf] using this
    · exact ih _ (upsertLog_nodup l (bulkRowOf j day req) hl) hids.2 i hmem

theorem foldl_upsert_mem (ids : List Int) (l : List LogRow)
    (day : String) (req : BulkReq) :
    ∀ r ∈ ids.foldl (fun acc sid => upsertLog acc (bulkRowOf sid day req)) l,
      r ∈ l ∨ ∃ i ∈ ids, r = bulkRowOf i day req := by
  induction ids generalizing l with
  | nil => intro r hr; exact Or.inl hr
  | cons j ids ih =>
    intro r hr
    rw [List.foldl_cons] at hr
    rcases ih _ r hr with hr2 | ⟨i, hi, rfl⟩
    · rcases upsertLog_mem l (bulkRowOf j day req) r hr2 with hr3 | rfl
      · exact Or.inl hr3
      · exact Or.inr ⟨j, List.mem_cons_self j ids, rfl⟩
    · exact Or.inr ⟨i, List.mem_cons_of_mem j hi, rfl⟩

/-- The shape of a successful bulk apply. -/
theorem bulk_apply_ok (db : DB) (bid : Int) (day : String) (req : BulkReq)
    (hday : (parseDay day).isSome = true)
    (hne : req.spider_ids.isEmpty = false)
    (hval : (bulkValidIds db bid req.spider_ids).isEmpty = false) :
    bulk_apply db bid day req =
      ({ db with spiderlog := ((bulkValidIds db bid req.spider_ids).foldl
          (fun acc sid => upsertLog acc (bulkRowOf sid day req)) db.spiderlog) },
       .okJson (bulkValidIds db bid req.spider_ids).length) := by
  obtain ⟨t, ht⟩ := Option.isSome_iff_exists.mp hday
  unfold bulk_apply
  rw [ht]
  simp only [hne, Bool.false_eq_true, if_false, hval]

/-- Claim C4.  Only ids owned by the target batch are applied; the JSON
count is the number of applied ids; when the filtered set is empty the
route answers the 400-style "no valid spiders" error and writes
nothing. -/
theorem c4_bulk_filter (db : DB) (bid : Int) (day : String) (req : BulkReq)
    (hwf : WF db) (hday : (parseDay day).isSome = true)
    (hne : req.spider_ids.isEmpty = false) :
    (∀ i ∈ bulkValidIds db bid req.spider_ids,
      ∃ s ∈ db.spiders, s.id = i ∧ s.batch_id = bid ∧ i ∈ req.spider_ids)
    ∧ ((bulkValidIds db bid req.spider_ids).isEmpty = true →
        bulk_apply db bid day req = (db, .badRequest "no valid spiders"))
    ∧ ((bulkValidIds db bid req.spider_ids).isEmpty = false →
        (bulk_apply db bid day req).2 =
            .okJson (bulkValidIds db bid req.spider_ids).length
        ∧ (∀ i ∈ bulkValidIds db bid req.spider_ids,
            (bulk_apply db bid day req).1.spiderlog.filter (keyMatch i day)
              = [bulkRowOf i day req])
        ∧ (∀ r ∈ (bulk_apply db bid day req).1.spiderlog,
            r ∈ db.spiderlog
            ∨ ∃ i ∈ bulkValidIds db bid req.spider_ids, r = bulkRowOf i day req)) := by
  refine ⟨fun i hi => (bulkValidIds_mem db bid req.spider_ids i).mp hi, ?_, ?_⟩
  · intro hval
    obtain ⟨t, ht⟩ := Option.isSome_iff_exists.mp hday
    unfold bulk_apply
    rw [ht]
    simp only [hne, Bool.false_eq_true, if_false, hval, if_true]
  · intro hval
    rw [bulk_apply_ok db bid day req hday hne hval]
    refine ⟨rfl, ?_, ?_⟩
    · intro i hi
      exact foldl_upsert_filter_mem _ _ day req hwf.2.2.2.1
        (bulkValidIds_nodup db bid req.spider_ids hwf) i hi
    · intro r hr
      exact foldl_upsert_mem _ _ day req r hr

/-- Store with two batches: batch 1 owns spider 1, batch 2 owns
spider 2. -/
def dbTwo : DB :=
  { next_batch_id := 3
    next_spider_id := 3
    batches := [⟨1, "A", ""⟩, ⟨2, "B", ""⟩]
    spiders := [⟨1, 1, 1, ""⟩, ⟨2, 2, 1, ""⟩]
    spiderlog := []
    highlights := [] }

theorem c4_bulk_filter_witness :
    (WF dbTwo ∧ (parseDay "2024-05-01").isSome = true
      ∧ (([1, 2] : List Int).isEmpty = false))
    ∧ ((∀ i ∈ bulkValidIds dbTwo 1 ({ spider_ids := [1, 2], fed := some "yes" } : BulkReq).spider_ids,
        ∃ s ∈ dbTwo.spiders, s.id = i ∧ s.batch_id = 1
          ∧ i ∈ ({ spider_ids := [1, 2], fed := some "yes" } : BulkReq).spider_ids)
    ∧ ((bulkValidIds dbTwo 1 ({ spider_ids := [1, 2], fed := some "yes" } : BulkReq).spider_ids).isEmpty = true →
        bulk_apply dbTwo 1 "2024-05-01" { spider_ids := [1, 2], fed := some "yes" }
          = (dbTwo, .badRequest "no valid spiders"))
    ∧ ((bulkValidIds dbTwo 1 ({ spider_ids := [1, 2], fed := some "yes" } : BulkReq).spider_ids).isEmpty = false →
        (bulk_apply dbTwo 1 "2024-05-01" { spider_ids := [1, 2], fed := some "yes" }).2 =
            .okJson (bulkValidIds dbTwo 1 ({ spider_ids := [1, 2], fed := some "yes" } : BulkReq).spider_ids).length
        ∧ (∀ i ∈ bulkValidIds dbTwo 1 ({ spider_ids := [1, 2], fed := some "yes" } : BulkReq).spider_ids,
            (bulk_apply dbTwo 1 "2024-05-01" { spider_ids := [1, 2], fed := some "yes" }).1.spiderlog.filter
              (keyMatch i "2024-05-01")
              = [bulkRowOf i "2024-05-01" { spider_ids := [1, 2], fed := some "yes" }])
        ∧ (∀ r ∈ (bulk_apply dbTwo 1 "2024-05-01" { spider_ids := [1, 2], fed := some "yes" }).1.spiderlog,
            r ∈ dbTwo.spiderlog
            ∨ ∃ i ∈ bulkValidIds dbTwo 1 ({ spider_ids := [1, 2], fed := some "yes" } : BulkReq).spider_ids,
                r = bulkRowOf i "2024-05-01" { spider_ids := [1, 2], fed := some "yes" })))
    ∧ bulkValidIds dbTwo 1 ({ spider_ids := [1, 2], fed := some "yes" } : BulkReq).spider_ids = [1] :=
  ⟨⟨by decide, by decide, by decide⟩,
    c4_bulk_filter dbTwo 1 "2024-05-01" { spider_ids := [1, 2], fed := some "yes" }
      (by decide) (by decide) (by decide),
    by decide⟩

/-- Inverting a successful `bulk_apply`: the ok branch must have been
taken. -/
theorem bulk_apply_ok_inv (db : DB) (bid : Int) (day : String) (req : BulkReq)
    (db2 : DB) (n : Nat) (hok : bulk_apply db bid day req = (db2, .okJson n)) :
    (bulkValidIds db bid req.spider_ids).isEmpty = false
    ∧ n = (bulkValidIds db bid req.spider_ids).length
    ∧ db2 = { db with spiderlog := ((bulkValidIds db bid req.spider_ids).foldl
        (fun acc sid => upsertLog acc (bulkRowOf sid day req)) db.spiderlog) } := by
  unfold bulk_apply at hok
  cases ht : parseDay day with
  | none =>
    rw [ht] at hok
    exact absurd (congrArg Prod.snd hok) (by simp)
  | some t =>
    rw [ht] at hok
    by_cases hne : req.spider_ids.isEmpty = true
    · rw [if_pos hne] at hok
      exact absurd (congrArg Prod.snd hok) (by simp)
    · rw [if_neg hne] at hok
      by_cases hval : (bulkValidIds db bid req.spider_ids).isEmpty = true
      · rw [if_pos hval] at hok
        exact absurd (congrArg Prod.snd hok) (by simp)
      · rw [if_neg hval] at hok
        have h2 := congrArg Prod.snd hok
        simp only at h2
        have h1 := congrArg Prod.fst hok
        simp only at h1
        refine ⟨Bool.eq_false_iff.mpr hval, ?_, h1.symm⟩
        have := Resp.okJson.injEq .. ▸ h2
        exact (Resp.okJson.inj h2).symm

/-- Claim C10.  Duplicate occurrences of owned ids in the request list do
not multiply the writes: the targeted id list is duplicate-free, the
reported count equals the number of distinct requested ids owned by the
batch (not the length of the submitted list), and after the call each
targeted spider holds exactly one row for the day. -/
theorem c10_bulk_dedup (db : DB) (bid : Int) (day : String) (req : BulkReq)
    (hwf : WF db) (db2 : DB) (n : Nat)
    (hok : bulk_apply db bid day req = (db2, .okJson n)) :
    (bulkValidIds db bid req.spider_ids).Nodup
    ∧ n = (req.spider_ids.dedup.filter
        (fun i => db.spiders.any (fun s => s.id == i && s.batch_id == bid))).length
    ∧ ∀ i ∈ bulkValidIds db bid req.spider_ids,
        (db2.spiderlog.filter (keyMatch i day)).length = 1 := by
  obtain ⟨hval, hn, hdb2⟩ := bulk_apply_ok_inv db bid day req db2 n hok
  have hnodup := bulkValidIds_nodup db bid req.spider_ids hwf
  refine ⟨hnodup, ?_, ?_⟩
  · have hperm : List.Perm (bulkValidIds db bid req.spider_ids)
        (req.spider_ids.dedup.filter
          (fun i => db.spiders.any (fun s => s.id == i && s.batch_id == bid))) := by
      refine (List.perm_ext_iff_of_nodup hnodup
        (List.Nodup.filter _ (List.nodup_dedup req.spider_ids))).mpr ?_
      intro i
      rw [bulkValidIds_mem]
      simp only [List.mem_filter, List.mem_dedup, List.any_eq_true,
        Bool.and_eq_true, beq_iff_eq]
      constructor
      · rintro ⟨s, hs, rfl, hbatch, hmem⟩
        exact ⟨hmem, s, hs, rfl, hbatch⟩
      · rintro ⟨hmem, s, hs, rfl, hbatch⟩
        exact ⟨s, hs, rfl, hbatch, hmem⟩
    rw [hn, hperm.length_eq]
  · intro i hi
    rw [hdb2]
    rw [foldl_upsert_filter_mem _ _ day req hwf.2.2.2.1 hnodup i hi]
    rfl

theorem c10_bulk_dedup_witness :
    (WF dbOne
      ∧ bulk_apply dbOne 1 "2024-05-01" { spider_ids := [1, 1], ate := some "yes" }
        = ((bulk_apply dbOne 1 "2024-05-01" { spider_ids := [1, 1], ate := some "yes" }).1,
           .okJson 1))
    ∧ (bulkValidIds dbOne 1 ({ spider_ids := [1, 1], ate := some "yes" } : BulkReq).spider_ids).Nodup
    ∧ 1 = (({ spider_ids := [1, 1], ate := some "yes" } : BulkReq).spider_ids.dedup.filter
        (fun i => dbOne.spiders.any (fun s => s.id == i && s.batch_id == 1))).length
    ∧ ∀ i ∈ bulkValidIds dbOne 1 ({ spider_ids := [1, 1], ate := some "yes" } : BulkReq).spider_ids,
        ((bulk_apply dbOne 1 "2024-05-01" { spider_ids := [1, 1], ate := some "yes" }).1.spiderlog.filter
          (keyMatch i "2024-05-01")).length = 1 :=
  ⟨⟨by decide, by decide⟩,
    c10_bulk_dedup dbOne 1 "2024-05-01" { spider_ids := [1, 1], ate := some "yes" }
      (by decide) _ 1 (by decide)⟩

/-! ## Claim C5: the yes/no fields are NOT coerced — present values are
stored verbatim, only absent fields default to "no" -/

/-- Counterexample to claim C5.  Submitting `fed = "maybe"` — outside
`{"yes","no"}` — through `save_spiderlog` stores the string `"maybe"`
unchanged: `request.form.get("fed", "no")` only substitutes the default
for an *absent* field, it never coerces a present value. -/
theorem c5_counterexample :
    ((save_spiderlog dbOne 1 "2024-05-01"
        { fed := some "maybe" }).1.spiderlog.map (·.fed)) = ["maybe"]
    ∧ ("maybe" : String) ≠ "yes" ∧ ("maybe" : String) ≠ "no" := by
  refine ⟨?_, by decide, by decide⟩
  decide

/-- Claim C5 as amended.  In both the single-spider route and the bulk
route, an absent fed/ate/watered/molting input is stored as `"no"` and a
present input is stored verbatim (no coercion to the `{"yes","no"}`
enumeration happens). -/
theorem c5_yes_no_verbatim (db : DB) (sid : Int) (day : String)
    (f : LogForm) (req : BulkReq)
    (hwf : WF db) (hday : (parseDay day).isSome = true)
    (hsp : (db.spiders.find? (fun s => s.id == sid)).isSome = true) :
    (saveStep sid day db f).spiderlog.filter (keyMatch sid day) = [logRowOf sid day f]
    ∧ (logRowOf sid day f).fed = f.fed.getD "no"
    ∧ (logRowOf sid day f).ate = f.ate.getD "no"
    ∧ (logRowOf sid day f).watered = f.watered.getD "no"
    ∧ (logRowOf sid day f).molting = f.molting.getD "no"
    ∧ (bulkRowOf sid day req).fed = req.fed.getD "no"
    ∧ (bulkRowOf sid day req).ate = req.ate.getD "no"
    ∧ (bulkRowOf sid day req).watered = req.watered.getD "no"
    ∧ (bulkRowOf sid day req).molting = req.molting.getD "no" := by
  refine ⟨?_, rfl, rfl, rfl, rfl, rfl, rfl, rfl, rfl⟩
  rw [saveStep_eq db sid day f hday hsp]
  have := upsertLog_filter_self db.spiderlog (logRowOf sid day f) hwf.2.2.2.1
  simpa [logRowOf] using this

theorem c5_yes_no_verbatim_witness :
    (WF dbOne ∧ (parseDay "2024-05-01").isSome = true
      ∧ (dbOne.spiders.find? (fun s => s.id == 1)).isSome = true)
    ∧ ((saveStep 1 "2024-05-01" dbOne { fed := some "maybe" }).spiderlog.filter
        (keyMatch 1 "2024-05-01")
        = [logRowOf 1 "2024-05-01" { fed := some "maybe" }]
      ∧ (logRowOf 1 "2024-05-01" ({ fed := some "maybe" } : LogForm)).fed
          = (({ fed := some "maybe" } : LogForm)).fed.getD "no"
      ∧ (logRowOf 1 "2024-05-01" ({ fed := some "maybe" } : LogForm)).ate
          = (({ fed := some "maybe" } : LogForm)).ate.getD "no"
      ∧ (logRowOf 1 "2024-05-01" ({ fed := some "maybe" } : LogForm)).watered
          = (({ fed := some "maybe" } : LogForm)).watered.getD "no"
      ∧ (logRowOf 1 "2024-05-01" ({ fed := some "maybe" } : LogForm)).molting
          = (({ fed := some "maybe" } : LogForm)).molting.getD "no"
      ∧ (bulkRowOf 1 "2024-05-01" ({ molting := some "??" } : BulkReq)).fed
          = (({ molting := some "??" } : BulkReq)).fed.getD "no"
      ∧ (bulkRowOf 1 "2024-05-01" ({ molting := some "??" } : BulkReq)).ate
          = (({ molting := some "??" } : BulkReq)).ate.getD "no"
      ∧ (bulkRowOf 1 "2024-05-01" ({ molting := some "??" } : BulkReq)).watered
          = (({ molting := some "??" } : BulkReq)).watered.getD "no"
      ∧ (bulkRowOf 1 "2024-05-01" ({ molting := some "??" } : BulkReq)).molting
          = (({ molting := some "??" } : BulkReq)).molting.getD "no") :=
  ⟨⟨by decide, by decide, by decide⟩,
    c5_yes_no_verbatim dbOne 1 "2024-05-01" { fed := some "maybe" }
      { molting := some "??" } (by decide) (by decide) (by decide)⟩

/-! ## Claim C6: the booty score is clamped to [1, 5] -/

/-- Claim C6.  In both routes the stored booty score is
`max(1, min(5, booty))` of the parsed input (default 3), hence always in
`[1, 5]`; in particular inputs 0, 6 and −1 are stored as 1, 5 and 1. -/
theorem c6_booty_clamped (db : DB) (sid : Int) (day : String)
    (f : LogForm) (req : BulkReq)
    (hwf : WF db) (hday : (parseDay day).isSome = true)
    (hsp : (db.spiders.find? (fun s => s.id == sid)).isSome = true) :
    (saveStep sid day db f).spiderlog.filter (keyMatch sid day) = [logRowOf sid day f]
    ∧ (logRowOf sid day f).booty
        = max 1 (min 5 ((parseInt (f.booty.getD "3")).getD 3))
    ∧ 1 ≤ (logRowOf sid day f).booty ∧ (logRowOf sid day f).booty ≤ 5
    ∧ (bulkRowOf sid day req).booty = max 1 (min 5 (req.booty.getD 3))
    ∧ 1 ≤ (bulkRowOf sid day req).booty ∧ (bulkRowOf sid day req).booty ≤ 5 := by
  have h1 : (logRowOf sid day f).booty
      = max 1 (min 5 ((parseInt (f.booty.getD "3")).getD 3)) := rfl
  have h2 : (bulkRowOf sid day req).booty = max 1 (min 5 (req.booty.getD 3)) := rfl
  refine ⟨?_, h1, by rw [h1]; omega, by rw [h1]; omega,
    h2, by rw [h2]; omega, by rw [h2]; omega⟩
  rw [saveStep_eq db sid day f hday hsp]
  have := upsertLog_filter_self db.spiderlog (logRowOf sid day f) hwf.2.2.2.1
  simpa [logRowOf] using this

theorem c6_booty_clamped_witness :
    (WF dbOne ∧ (parseDay "2024-05-01").isSome = true
      ∧ (dbOne.spiders.find? (fun s => s.id == 1)).isSome = true)
    ∧ ((saveStep 1 "2024-05-01" dbOne { booty := some "0" }).spiderlog.filter
        (keyMatch 1 "2024-05-01") = [logRowOf 1 "2024-05-01" { booty := some "0" }]
      ∧ (logRowOf 1 "2024-05-01" ({ booty := some "0" } : LogForm)).booty
          = max 1 (min 5 ((parseInt ((({ booty := some "0" } : LogForm)).booty.getD "3")).getD 3))
      ∧ 1 ≤ (logRowOf 1 "2024-05-01" ({ booty := some "0" } : LogForm)).booty
      ∧ (logRowOf 1 "2024-05-01" ({ booty := some "0" } : LogForm)).booty ≤ 5
      ∧ (bulkRowOf 1 "2024-05-01" ({ booty := some 6 } : BulkReq)).booty
          = max 1 (min 5 ((({ booty := some 6 } : BulkReq)).booty.getD 3))
      ∧ 1 ≤ (bulkRowOf 1 "2024-05-01" ({ booty := some 6 } : BulkReq)).booty
      ∧ (bulkRowOf 1 "2024-05-01" ({ booty := some 6 } : BulkReq)).booty ≤ 5)
    ∧ (logRowOf 1 "2024-05-01" ({ booty := some "0" } : LogForm)).booty = 1
    ∧ (logRowOf 1 "2024-05-01" ({ booty := some "6" } : LogForm)).booty = 5
    ∧ (logRowOf 1 "2024-05-01" ({ booty := some "-1" } : LogForm)).booty = 1
    ∧ (bulkRowOf 1 "2024-05-01" ({ booty := some 6 } : BulkReq)).booty = 5
    ∧ (bulkRowOf 1 "2024-05-01" ({ booty := some (-1) } : BulkReq)).booty = 1 :=
  ⟨⟨by decide, by decide, by decide⟩,
    c6_booty_clamped dbOne 1 "2024-05-01" { booty := some "0" } { booty := some 6 }
      (by decide) (by decide) (by decide),
    by decide, by decide, by decide, by decide, by decide⟩

/-! ## Claim C9: behaviour on unknown ids -/

/-- Counterexample to claim C9.  `set_highlight` never checks that the
spider exists: called with the unknown id 5 it answers plain `ok`
(no 404) and inserts a highlight row for the nonexistent spider —
an implicit row creation. -/
theorem c9_counterexample :
    (∀ s ∈ dbOne.spiders, ¬ s.id = 5)
    ∧ set_highlight dbOne "5" "#ef4444"
        = ({ dbOne with highlights := [⟨5, "#ef4444"⟩] }, .okText) := by
  refine ⟨by decide, ?_⟩
  decide

/-- Claim C9 as amended.  Only the single-spider day-log upsert behaves
as claimed: on an unknown spider id it answers 404 and writes nothing.
`set_last_fed` on an unknown batch id updates no row but still answers
`ok` rather than a 404, and `set_highlight` (see the counterexample)
checks nothing and inserts a row for any id. -/
theorem c9_unknown_ids (db : DB) (sid : Int) (day : String) (f : LogForm)
    (bidraw color : String) (bid : Int)
    (hday : (parseDay day).isSome = true)
    (hnosp : db.spiders.find? (fun s => s.id == sid) = none)
    (hbid : parseInt bidraw = some bid)
    (hnob : bid ∉ db.batches.map (·.id))
    (hcolor : pyStrip color = "" ∨ pyStrip color ∈ COLOR_OPTIONS) :
    save_spiderlog db sid day f = (db, .notFound)
    ∧ set_last_fed db bidraw color = (db, .okText) := by
  constructor
  · obtain ⟨t, ht⟩ := Option.isSome_iff_exists.mp hday
    unfold save_spiderlog
    rw [ht, hnosp]
  · unfold set_last_fed
    rw [hbid]
    dsimp only
    rw [if_neg (by
      rintro ⟨hc1, hc2⟩
      rcases hcolor with h | h
      · exact hc1 h
      · exact hc2 h)]
    have hmap : db.batches.map
        (fun b => if b.id == bid then { b with last_fed_color := pyStrip color } else b)
        = db.batches := by
      have : db.batches.map
          (fun b => if b.id == bid then { b with last_fed_color := pyStrip color } else b)
          = db.batches.map id := by
        refine List.map_congr_left ?_
        intro b hb
        rw [if_neg (by
          intro hc
          rw [beq_iff_eq] at hc
          exact hnob (hc ▸ List.mem_map_of_mem (·.id) hb))]
        rfl
      rw [this, List.map_id]
    rw [hmap]

theorem c9_unknown_ids_witness :
    ((parseDay "2024-05-01").isSome = true
      ∧ dbOne.spiders.find? (fun s => s.id == 5) = none
      ∧ parseInt "7" = some 7
      ∧ (7 : Int) ∉ dbOne.batches.map (·.id)
      ∧ (pyStrip "" = "" ∨ pyStrip "" ∈ COLOR_OPTIONS))
    ∧ save_spiderlog dbOne 5 "2024-05-01" { } = (dbOne, .notFound)
    ∧ set_last_fed dbOne "7" "" = (dbOne, .okText) :=
  ⟨⟨by decide, by decide, by decide, by decide, Or.inl (by decide)⟩,
    c9_unknown_ids dbOne 5 "2024-05-01" { } "7" "" 7
      (by decide) (by decide) (by decide) (by decide) (Or.inl (by decide))⟩

/-- Store for the C3 witness: two batches with one spider each, a log
row and a highlight on batch 1's spider. -/
def dbFull : DB :=
  { next_batch_id := 3
    next_spider_id := 3
    batches := [⟨1, "A", ""⟩, ⟨2, "B", ""⟩]
    spiders := [⟨1, 1, 1, ""⟩, ⟨2, 2, 1, ""⟩]
    spiderlog := [⟨1, "2024-05-01", "yes", "no", "no", "no", 0, "", 3⟩]
    highlights := [⟨1, "#ef4444"⟩] }

theorem c3_delete_batch_witness :
    WF dbFull
    ∧ ((delete_batch dbFull 1).batches.filter (fun b => b.id == 1) = []
    ∧ (delete_batch dbFull 1).spiders.filter (fun s => s.batch_id == 1) = []
    ∧ (∀ r ∈ (delete_batch dbFull 1).spiderlog, r.spider_id ∉ batchSpiderIds dbFull 1)
    ∧ (∀ h ∈ (delete_batch dbFull 1).highlights, h.spider_id ∉ batchSpiderIds dbFull 1)
    ∧ (∀ day : String, (delete_batch dbFull 1).spiderlog.filter
        (fun r => r.day == day && (delete_batch dbFull 1).spiders.any
          (fun s => s.id == r.spider_id && s.batch_id == 1)) = [])
    ∧ ((1 : Int) ∉ dbFull.batches.map (·.id) → delete_batch dbFull 1 = dbFull)) :=
  ⟨by decide, c3_delete_batch dbFull 1 (by decide)⟩

/-! ## Arithmetic of the proleptic Gregorian calendar -/

theorem monthLen_pos (L : Bool) (m : Nat) (h1 : 1 ≤ m) (h2 : m ≤ 12) :
    1 ≤ monthLen L m := by
  interval_cases m <;> cases L <;> decide

theorem monthOffset_succ (L : Bool) (m : Nat) (h1 : 1 ≤ m) (h2 : m ≤ 11) :
    monthOffset L (m + 1) = monthOffset L m + monthLen L m := by
  interval_cases m <;> cases L <;> decide

theorem monthOffset_year (L : Bool) :
    monthOffset L 12 + monthLen L 12 = 365 + (if L then 1 else 0) := by
  cases L <;> decide

theorem monthOffset_full (L : Bool) (m : Nat) (h1 : 1 ≤ m) (h2 : m ≤ 12) :
    monthOffset L m + monthLen L m ≤ 365 + (if L then 1 else 0) := by
  interval_cases m <;> cases L <;> decide

theorem monthOffset_mono (L : Bool) (m n : Nat) (h1 : 1 ≤ m) (h2 : m < n)
    (h3 : n ≤ 12) : monthOffset L m + monthLen L m ≤ monthOffset L n := by
  have hm : m ≤ 11 := by omega
  interval_cases m <;> interval_cases n <;> cases L <;> decide

set_option maxHeartbeats 1000000 in
theorem daysBeforeYear_succ (y : Nat) (hy : 1 ≤ y) :
    daysBeforeYear (y + 1) = daysBeforeYear y + 365 + (if isLeap y then 1 else 0) := by
  by_cases h : isLeap y = true
  · rw [if_pos h]
    simp only [isLeap, Bool.or_eq_true, Bool.and_eq_true, beq_iff_eq,
      bne_iff_ne, ne_eq] at h
    unfold daysBeforeYear
    omega
  · rw [if_neg h]
    simp only [isLeap, Bool.or_eq_true, Bool.and_eq_true, beq_iff_eq,
      bne_iff_ne, ne_eq, not_or, not_and_or, not_not] at h
    unfold daysBeforeYear
    omega

theorem daysBeforeYear_le_succ (y : Nat) :
    daysBeforeYear y ≤ daysBeforeYear (y + 1) := by
  unfold daysBeforeYear
  omega

theorem daysBeforeYear_mono (a b : Nat) (h : a ≤ b) :
    daysBeforeYear a ≤ daysBeforeYear b := by
  induction b with
  | zero => interval_cases a; exact Nat.le_refl _
  | succ b ih =>
    rcases Nat.lt_or_ge a (b + 1) with h2 | h2
    · exact (ih (by omega)).trans (daysBeforeYear_le_succ b)
    · have : a = b + 1 := by omega
      rw [this]


theorem validDate_mk (a b c : Nat) :
    validDate ⟨a, b, c⟩ ↔
      1 ≤ a ∧ 1 ≤ b ∧ b ≤ 12 ∧ 1 ≤ c ∧ c ≤ monthLen (isLeap a) b := Iff.rfl

theorem rataDie_mk (a b c : Nat) :
    rataDie ⟨a, b, c⟩ = daysBeforeYear a + monthOffset (isLeap a) b + c := rfl

theorem rataDie_expand (t : Date) :
    rataDie t = daysBeforeYear t.y + monthOffset (isLeap t.y) t.m + t.d := rfl

theorem monthOffset_one (L : Bool) : monthOffset L 1 = 0 := by cases L <;> rfl

theorem monthLen_dec (L : Bool) : monthLen L 12 = 31 := by cases L <;> rfl

theorem rataDie_nextDate (t : Date) (h : validDate t) :
    validDate (nextDate t) ∧ rataDie (nextDate t) = rataDie t + 1 := by
  obtain ⟨hy, hm1, hm2, hd1, hd2⟩ := h
  unfold daysInMonth at hd2
  unfold nextDate daysInMonth
  by_cases h1 : t.d < monthLen (isLeap t.y) t.m
  · rw [if_pos h1]
    rw [validDate_mk, rataDie_mk, rataDie_expand]
    omega
  · rw [if_neg h1]
    by_cases h2 : t.m < 12
    · rw [if_pos h2]
      rw [validDate_mk, rataDie_mk, rataDie_expand]
      have hlen := monthLen_pos (isLeap t.y) (t.m + 1) (by omega) (by omega)
      have hsucc := monthOffset_succ (isLeap t.y) t.m hm1 (by omega)
      omega
    · rw [if_neg h2]
      rw [validDate_mk, rataDie_mk, rataDie_expand]
      have hm : t.m = 12 := by omega
      rw [monthOffset_one]
      rw [daysBeforeYear_succ t.y hy]
      have hyear := monthOffset_year (isLeap t.y)
      have hlen := monthLen_pos (isLeap (t.y + 1)) 1 (le_refl 1) (by omega)
      rw [hm] at hd2 h1 ⊢
      omega

theorem rataDie_prevDate (t : Date) (h : validDate t) (h2 : 2 ≤ rataDie t) :
    validDate (prevDate t) ∧ rataDie (prevDate t) = rataDie t - 1 := by
  obtain ⟨hy, hm1, hm2, hd1, hd2⟩ := h
  rw [rataDie_expand] at h2
  unfold daysInMonth at hd2
  unfold prevDate daysInMonth
  by_cases hd : 1 < t.d
  · rw [if_pos hd]
    rw [validDate_mk, rataDie_mk, rataDie_expand]
    omega
  · rw [if_neg hd]
    have hd0 : t.d = 1 := by omega
    by_cases hm : 1 < t.m
    · rw [if_pos hm]
      rw [validDate_mk, rataDie_mk, rataDie_expand]
      have hlen := monthLen_pos (isLeap t.y) (t.m - 1) (by omega) (by omega)
      have hsucc := monthOffset_succ (isLeap t.y) (t.m - 1) (by omega) (by omega)
      rw [show t.m - 1 + 1 = t.m by omega] at hsucc
      omega
    · rw [if_neg hm]
      have hm0 : t.m = 1 := by omega
      rw [hm0, monthOffset_one] at h2
      have hy2 : 2 ≤ t.y := by
        by_contra hc
        have h1 : t.y = 1 := by omega
        rw [h1, hd0] at h2
        simp [daysBeforeYear] at h2
      rw [validDate_mk, rataDie_mk, rataDie_expand]
      rw [monthLen_dec]
      have hstep := daysBeforeYear_succ (t.y - 1) (by omega)
      rw [show t.y - 1 + 1 = t.y by omega] at hstep
      have hyear := monthOffset_year (isLeap (t.y - 1))
      rw [monthLen_dec] at hyear
      rw [hm0, monthOffset_one]
      omega

theorem rataDie_iterate_next (k : Nat) (t : Date) (h : validDate t) :
    validDate (Nat.iterate nextDate k t)
    ∧ rataDie (Nat.iterate nextDate k t) = rataDie t + k := by
  induction k with
  | zero => exact ⟨h, rfl⟩
  | succ k ih =>
    rw [Function.iterate_succ_apply']
    obtain ⟨hv, hr⟩ := ih
    obtain ⟨hv2, hr2⟩ := rataDie_nextDate _ hv
    exact ⟨hv2, by omega⟩

theorem rataDie_iterate_prev (k : Nat) (t : Date) (h : validDate t)
    (hk : k < rataDie t) :
    validDate (Nat.iterate prevDate k t)
    ∧ rataDie (Nat.iterate prevDate k t) = rataDie t - k := by
  induction k with
  | zero => exact ⟨h, rfl⟩
  | succ k ih =>
    rw [Function.iterate_succ_apply']
    obtain ⟨hv, hr⟩ := ih (by omega)
    obtain ⟨hv2, hr2⟩ := rataDie_prevDate _ hv (by omega)
    exact ⟨hv2, by omega⟩

/-- `rataDie` is strictly monotone in the year/month/day order on valid
dates. -/
theorem rataDie_lt_of_lex (t u : Date) (ht : validDate t) (hu : validDate u)
    (hlex : t.y < u.y ∨ (t.y = u.y ∧ (t.m < u.m ∨ (t.m = u.m ∧ t.d < u.d)))) :
    rataDie t < rataDie u := by
  obtain ⟨hty, htm1, htm2, htd1, htd2⟩ := ht
  obtain ⟨huy, hum1, hum2, hud1, hud2⟩ := hu
  unfold daysInMonth at htd2 hud2
  rw [rataDie_expand, rataDie_expand]
  rcases hlex with hy | ⟨hy, hm | ⟨hm, hd⟩⟩
  · have hfull := monthOffset_full (isLeap t.y) t.m htm1 htm2
    have hstep := daysBeforeYear_succ t.y hty
    have hmono : daysBeforeYear (t.y + 1) ≤ daysBeforeYear u.y :=
      daysBeforeYear_mono _ _ (by omega)
    omega
  · have hmono := monthOffset_mono (isLeap t.y) t.m u.m htm1 hm hum2
    rw [hy] at hmono htd2 ⊢
    omega
  · rw [hy, hm]
    omega

/-- `rataDie` is injective on valid dates. -/
theorem rataDie_inj (t u : Date) (ht : validDate t) (hu : validDate u)
    (h : rataDie t = rataDie u) : t = u := by
  by_contra hne
  have htri : t.y < u.y ∨ (t.y = u.y ∧ (t.m < u.m ∨ (t.m = u.m ∧ t.d < u.d)))
      ∨ u.y < t.y ∨ (u.y = t.y ∧ (u.m < t.m ∨ (u.m = t.m ∧ u.d < t.d))) := by
    rcases Nat.lt_trichotomy t.y u.y with h1 | h1 | h1
    · exact Or.inl h1
    · rcases Nat.lt_trichotomy t.m u.m with h2 | h2 | h2
      · exact Or.inr (Or.inl ⟨h1, Or.inl h2⟩)
      · rcases Nat.lt_trichotomy t.d u.d with h3 | h3 | h3
        · exact Or.inr (Or.inl ⟨h1, Or.inr ⟨h2, h3⟩⟩)
        · exact absurd (by cases t; cases u; simp_all : t = u) hne
        · exact Or.inr (Or.inr (Or.inr ⟨h1.symm, Or.inr ⟨h2.symm, h3⟩⟩))
      · exact Or.inr (Or.inr (Or.inr ⟨h1.symm, Or.inl h2⟩))
    · exact Or.inr (Or.inr (Or.inl h1))
  rcases htri with h1 | h1 | h1 | h1
  · exact absurd h (Nat.ne_of_lt (rataDie_lt_of_lex t u ht hu (Or.inl h1)))
  · exact absurd h (Nat.ne_of_lt (rataDie_lt_of_lex t u ht hu (Or.inr h1)))
  · exact absurd h.symm (Nat.ne_of_lt (rataDie_lt_of_lex u t hu ht (Or.inl h1)))
  · exact absurd h.symm (Nat.ne_of_lt (rataDie_lt_of_lex u t hu ht (Or.inr h1)))

/-! ## Lemmas about the month grid -/

theorem gridBefore_eq (y m : Nat) : gridBefore y m = rataDie ⟨y, m, 1⟩ % 7 := by
  unfold gridBefore weekday
  omega

theorem gridBefore_lt (y m : Nat) : gridBefore y m < 7 := by
  rw [gridBefore_eq]
  omega

/-- Outside January of year 1, the first of the month is at least a week
into the calendar, so the leading pad never underflows. -/
theorem first_rataDie_ge (y m : Nat) (hy : 1 ≤ y) (hm1 : 1 ≤ m) (hm2 : m ≤ 12)
    (hne : ¬ (y = 1 ∧ m = 1)) : 7 ≤ rataDie ⟨y, m, 1⟩ := by
  rw [rataDie_mk]
  by_cases hm : 2 ≤ m
  · have : 31 ≤ monthOffset (isLeap y) m := by
      have h2 : 2 ≤ m := hm
      interval_cases m <;> cases isLeap y <;> decide
    omega
  · have hy2 : 2 ≤ y := by
      rcases Nat.lt_or_ge y 2 with h | h
      · exact absurd ⟨by omega, by omega⟩ hne
      · exact h
    have : daysBeforeYear 2 ≤ daysBeforeYear y := daysBeforeYear_mono 2 y hy2
    have h365 : daysBeforeYear 2 = 365 := by decide
    omega

theorem monthGridStart_spec (y m : Nat) (hy : 1 ≤ y) (hm1 : 1 ≤ m) (hm2 : m ≤ 12)
    (hne : ¬ (y = 1 ∧ m = 1)) :
    validDate (monthGridStart y m)
    ∧ rataDie (monthGridStart y m) = rataDie ⟨y, m, 1⟩ - gridBefore y m
    ∧ rataDie (monthGridStart y m) % 7 = 0 := by
  have hval1 : validDate ⟨y, m, 1⟩ := by
    rw [validDate_mk]
    exact ⟨hy, hm1, hm2, le_refl 1, monthLen_pos _ m hm1 hm2⟩
  have hge := first_rataDie_ge y m hy hm1 hm2 hne
  have hlt := gridBefore_lt y m
  obtain ⟨hv, hr⟩ := rataDie_iterate_prev (gridBefore y m) ⟨y, m, 1⟩ hval1 (by omega)
  refine ⟨hv, hr, ?_⟩
  unfold monthGridStart
  rw [hr, gridBefore_eq]
  omega

theorem monthGridLen_mod (y m : Nat) : monthGridLen y m % 7 = 0 := by
  unfold monthGridLen gridBefore gridAfter weekday
  omega

theorem monthGridLen_ge (y m : Nat) (hy : 1 ≤ y) (hm1 : 1 ≤ m) (hm2 : m ≤ 12) :
    7 ≤ monthGridLen y m := by
  have hmod := monthGridLen_mod y m
  have hpos : 1 ≤ daysInMonth y m := monthLen_pos _ m hm1 hm2
  unfold monthGridLen at hmod ⊢
  omega

theorem monthGridLen_nd (y m : Nat) :
    gridBefore y m + daysInMonth y m ≤ monthGridLen y m := by
  unfold monthGridLen
  omega

/-- Every valid date whose ordinal lies in the grid's span appears among
the grid's dates. -/
theorem monthGridDates_mem (y m : Nat) (hy : 1 ≤ y) (hm1 : 1 ≤ m) (hm2 : m ≤ 12)
    (hne : ¬ (y = 1 ∧ m = 1)) (t : Date) (hv : validDate t)
    (hlow : rataDie (monthGridStart y m) ≤ rataDie t)
    (hhigh : rataDie t < rataDie (monthGridStart y m) + monthGridLen y m) :
    t ∈ monthGridDates y m := by
  obtain ⟨hsv, hsr, hs7⟩ := monthGridStart_spec y m hy hm1 hm2 hne
  unfold monthGridDates
  rw [List.mem_map]
  refine ⟨rataDie t - rataDie (monthGridStart y m), ?_, ?_⟩
  · rw [List.mem_range]
    omega
  · obtain ⟨hv2, hr2⟩ := rataDie_iterate_next
      (rataDie t - rataDie (monthGridStart y m)) (monthGridStart y m) hsv
    refine rataDie_inj _ _ hv2 hv (by omega)

/-- Splitting off a full 7-element chunk. -/
theorem chunk7_append (l1 : List α) (h : l1.length = 7) (l2 : List α) :
    chunk7 (l1 ++ l2) = l1 :: chunk7 l2 := by
  match l1, h with
  | [a, b, c, d, e, f, g], _ => rfl

/-- The chunked range-map in closed form. -/
theorem chunk7_range_map (k : Nat) (f : Nat → α) :
    chunk7 ((List.range (7 * k)).map f)
      = (List.range k).map (fun i => (List.range 7).map (fun j => f (7 * i + j))) := by
  induction k generalizing f with
  | zero =>
    rw [Nat.mul_zero, List.range_zero, List.map_nil, List.map_nil]
    rw [chunk7]
  | succ k ih =>
    rw [show 7 * (k + 1) = 7 + 7 * k by ring, List.range_add, List.map_append]
    rw [chunk7_append _ (by simp) _]
    rw [List.map_map]
    rw [show ((f ∘ fun x => 7 + x) : Nat → α) = fun n => f (7 + n) from rfl]
    rw [ih (fun n => f (7 + n))]
    rw [show k + 1 = 1 + k by ring, List.range_add, List.map_append, List.map_map]
    congr 1
    simp only [List.map_nil, List.nil_append, Function.comp]
    refine List.map_congr_left ?_
    intro i _
    simp only [Function.comp_apply]
    refine List.map_congr_left ?_
    intro j _
    congr 1
    ring

/-- Last date of the grid. -/
def gridEnd (y m : Nat) : Date :=
  Nat.iterate nextDate (monthGridLen y m - 1) (monthGridStart y m)

theorem monthGrid_eq (y m : Nat) :
    monthGrid y m = (List.range (monthGridLen y m / 7)).map
      (fun i => (List.range 7).map
        (fun j => Nat.iterate nextDate (7 * i + j) (monthGridStart y m))) := by
  unfold monthGrid monthGridDates
  have hmod := monthGridLen_mod y m
  nth_rewrite 1 [show monthGridLen y m = 7 * (monthGridLen y m / 7) by omega]
  rw [chunk7_range_map]

theorem monthGridDates_head (y m : Nat) (hy : 1 ≤ y) (hm1 : 1 ≤ m) (hm2 : m ≤ 12) :
    (monthGridDates y m).head? = some (monthGridStart y m) := by
  have h7 := monthGridLen_ge y m hy hm1 hm2
  unfold monthGridDates
  rw [List.head?_eq_getElem?, List.getElem?_map, List.getElem?_range (by omega)]
  rfl

theorem monthGridDates_getLast (y m : Nat) (hy : 1 ≤ y) (hm1 : 1 ≤ m) (hm2 : m ≤ 12) :
    (monthGridDates y m).getLast? = some (gridEnd y m) := by
  have h7 := monthGridLen_ge y m hy hm1 hm2
  unfold monthGridDates gridEnd
  rw [List.getLast?_eq_getElem?, List.length_map, List.length_range,
    List.getElem?_map, List.getElem?_range (by omega)]
  rfl

theorem monthGrid_head_head (y m : Nat) (hy : 1 ≤ y) (hm1 : 1 ≤ m) (hm2 : m ≤ 12) :
    ∃ w0, (monthGrid y m).head? = some w0 ∧ w0.head? = some (monthGridStart y m) := by
  have h7 := monthGridLen_ge y m hy hm1 hm2
  have hmod := monthGridLen_mod y m
  rw [monthGrid_eq]
  refine ⟨(List.range 7).map
      (fun j => Nat.iterate nextDate (7 * 0 + j) (monthGridStart y m)), ?_, ?_⟩
  · rw [List.head?_eq_getElem?, List.getElem?_map, List.getElem?_range (by omega)]
    rfl
  · rw [List.head?_eq_getElem?, List.getElem?_map, List.getElem?_range (by omega)]
    rfl

theorem monthGrid_last_last (y m : Nat) (hy : 1 ≤ y) (hm1 : 1 ≤ m) (hm2 : m ≤ 12) :
    ∃ wl, (monthGrid y m).getLast? = some wl ∧ wl.getLast? = some (gridEnd y m) := by
  have h7 := monthGridLen_ge y m hy hm1 hm2
  have hmod := monthGridLen_mod y m
  rw [monthGrid_eq]
  refine ⟨(List.range 7).map
      (fun j => Nat.iterate nextDate (7 * (monthGridLen y m / 7 - 1) + j)
        (monthGridStart y m)), ?_, ?_⟩
  · rw [List.getLast?_eq_getElem?, List.length_map, List.length_range,
      List.getElem?_map, List.getElem?_range (by omega)]
    rfl
  · rw [List.getLast?_eq_getElem?, List.length_map, List.length_range,
      List.getElem?_map, List.getElem?_range (by omega)]
    unfold gridEnd
    show some (Nat.iterate nextDate (7 * (monthGridLen y m / 7 - 1) + (7 - 1)) (monthGridStart y m)) = _
    rw [show 7 * (monthGridLen y m / 7 - 1) + (7 - 1) = monthGridLen y m - 1 by omega]

theorem gridAfter_lt (y m : Nat) : gridAfter y m < 7 := by
  unfold gridAfter
  omega

theorem monthGridLen_expand (y m : Nat) :
    monthGridLen y m = gridBefore y m + daysInMonth y m + gridAfter y m := rfl

theorem gridEnd_rataDie (y m : Nat) (hy : 1 ≤ y) (hm1 : 1 ≤ m) (hm2 : m ≤ 12)
    (hne : ¬ (y = 1 ∧ m = 1)) :
    validDate (gridEnd y m)
    ∧ rataDie (gridEnd y m) = rataDie (monthGridStart y m) + (monthGridLen y m - 1) := by
  obtain ⟨hsv, hsr, hs7⟩ := monthGridStart_spec y m hy hm1 hm2 hne
  exact rataDie_iterate_next (monthGridLen y m - 1) (monthGridStart y m) hsv

/-- Claim C7.  For every valid year and month (the source raises on
(1, 1), where the leading pad would leave the calendar), the month grid
is a sequence of weeks of exactly 7 consecutive dates each starting on a
Sunday; the grid's first date is the Sunday on or before the 1st of the
month, its last date is the Saturday on or after the month's last day,
and every day of the month appears among the grid's dates. -/
theorem c7_month_grid (y m : Nat) (hy : 1 ≤ y) (hm1 : 1 ≤ m) (hm2 : m ≤ 12)
    (hne : ¬ (y = 1 ∧ m = 1)) :
    (∀ w ∈ monthGrid y m, ∃ s, validDate s ∧ weekday s = 6
      ∧ w = (List.range 7).map (fun j => Nat.iterate nextDate j s))
    ∧ (monthGridDates y m).head? = some (monthGridStart y m)
    ∧ weekday (monthGridStart y m) = 6
    ∧ rataDie (monthGridStart y m) ≤ rataDie ⟨y, m, 1⟩
    ∧ rataDie ⟨y, m, 1⟩ < rataDie (monthGridStart y m) + 7
    ∧ (monthGridDates y m).getLast? = some (gridEnd y m)
    ∧ weekday (gridEnd y m) = 5
    ∧ rataDie ⟨y, m, daysInMonth y m⟩ ≤ rataDie (gridEnd y m)
    ∧ rataDie (gridEnd y m) < rataDie ⟨y, m, daysInMonth y m⟩ + 7
    ∧ (∀ d, 1 ≤ d → d ≤ daysInMonth y m →
        (⟨y, m, d⟩ : Date) ∈ monthGridDates y m) := by
  obtain ⟨hsv, hsr, hs7⟩ := monthGridStart_spec y m hy hm1 hm2 hne
  obtain ⟨hev, her⟩ := gridEnd_rataDie y m hy hm1 hm2 hne
  have h7 := monthGridLen_ge y m hy hm1 hm2
  have hmod := monthGridLen_mod y m
  have hbefore := gridBefore_eq y m
  have hafter := gridAfter_lt y m
  have hexpand := monthGridLen_expand y m
  have hge := first_rataDie_ge y m hy hm1 hm2 hne
  have hd1 : rataDie ⟨y, m, 1⟩ = daysBeforeYear y + monthOffset (isLeap y) m + 1 :=
    rataDie_mk y m 1
  refine ⟨?_, monthGridDates_head y m hy hm1 hm2, ?_, ?_, ?_,
    monthGridDates_getLast y m hy hm1 hm2, ?_, ?_, ?_, ?_⟩
  · intro w hw
    rw [monthGrid_eq] at hw
    rcases List.mem_map.mp hw with ⟨i, hi, rfl⟩
    refine ⟨Nat.iterate nextDate (7 * i) (monthGridStart y m), ?_, ?_, ?_⟩
    · exact (rataDie_iterate_next (7 * i) (monthGridStart y m) hsv).1
    · have := (rataDie_iterate_next (7 * i) (monthGridStart y m) hsv).2
      unfold weekday
      omega
    · refine List.map_congr_left ?_
      intro j _
      rw [show 7 * i + j = j + 7 * i by ring, Function.iterate_add_apply]
  · unfold weekday
    omega
  · omega
  · omega
  · unfold weekday
    omega
  · have hlast : rataDie ⟨y, m, daysInMonth y m⟩
        = daysBeforeYear y + monthOffset (isLeap y) m + daysInMonth y m :=
      rataDie_mk y m (daysInMonth y m)
    omega
  · have hlast : rataDie ⟨y, m, daysInMonth y m⟩
        = daysBeforeYear y + monthOffset (isLeap y) m + daysInMonth y m :=
      rataDie_mk y m (daysInMonth y m)
    omega
  · intro d hd1' hd2'
    have hmem : rataDie ⟨y, m, d⟩ = daysBeforeYear y + monthOffset (isLeap y) m + d :=
      rataDie_mk y m d
    refine monthGridDates_mem y m hy hm1 hm2 hne ⟨y, m, d⟩ ?_ ?_ ?_
    · rw [validDate_mk]
      unfold daysInMonth at hd2'
      exact ⟨hy, hm1, hm2, hd1', hd2'⟩
    · omega
    · omega

set_option maxRecDepth 10000 in
theorem c7_month_grid_witness :
    ((1 : Nat) ≤ 2024 ∧ (1 : Nat) ≤ 2 ∧ (2 : Nat) ≤ 12 ∧ ¬ ((2024 : Nat) = 1 ∧ (2 : Nat) = 1))
    ∧ ((∀ w ∈ monthGrid 2024 2, ∃ s, validDate s ∧ weekday s = 6
        ∧ w = (List.range 7).map (fun j => Nat.iterate nextDate j s))
      ∧ (monthGridDates 2024 2).head? = some (monthGridStart 2024 2)
      ∧ weekday (monthGridStart 2024 2) = 6
      ∧ rataDie (monthGridStart 2024 2) ≤ rataDie ⟨2024, 2, 1⟩
      ∧ rataDie ⟨2024, 2, 1⟩ < rataDie (monthGridStart 2024 2) + 7
      ∧ (monthGridDates 2024 2).getLast? = some (gridEnd 2024 2)
      ∧ weekday (gridEnd 2024 2) = 5
      ∧ rataDie ⟨2024, 2, daysInMonth 2024 2⟩ ≤ rataDie (gridEnd 2024 2)
      ∧ rataDie (gridEnd 2024 2) < rataDie ⟨2024, 2, daysInMonth 2024 2⟩ + 7
      ∧ (∀ d, 1 ≤ d → d ≤ daysInMonth 2024 2 →
          (⟨2024, 2, d⟩ : Date) ∈ monthGridDates 2024 2))
    ∧ isoStr (monthGridStart 2024 2) = "2024-01-28"
    ∧ isoStr (gridEnd 2024 2) = "2024-03-02"
    ∧ daysInMonth 2024 2 = 29 :=
  ⟨⟨by decide, by decide, by decide, by decide⟩,
    c7_month_grid 2024 2 (by decide) (by decide) (by decide) (by decide),
    by decide, by decide, by decide⟩

/-! ## Byte comparison of ISO date strings -/

theorem dChar_toNat (n : Nat) (h : n ≤ 9) : (dChar n).toNat = 48 + n := by
  interval_cases n <;> rfl

/-- Two-digit lexicographic comparison is numeric comparison. -/
theorem two_digit_lex (a b : Nat) (ha : a ≤ 99) (hb : b ≤ 99) (p : Prop) :
    (a / 10 < b / 10 ∨ (a / 10 = b / 10 ∧ (a % 10 < b % 10 ∨ (a % 10 = b % 10 ∧ p))))
      ↔ (a < b ∨ (a = b ∧ p)) := by
  constructor
  · rintro (h | ⟨h1, h2 | ⟨h2, hp⟩⟩)
    · left; omega
    · left; omega
    · right; exact ⟨by omega, hp⟩
  · rintro (h | ⟨rfl, hp⟩)
    · by_cases h2 : a / 10 < b / 10
      · exact Or.inl h2
      · exact Or.inr ⟨by omega, Or.inl (by omega)⟩
    · exact Or.inr ⟨rfl, Or.inr ⟨rfl, hp⟩⟩

/-- Splitting a number below 10000 into two two-digit halves respects
the order. -/
theorem hundreds_lex (a b : Nat) (ha : a ≤ 9999) (hb : b ≤ 9999) (p : Prop) :
    (a / 100 < b / 100 ∨ (a / 100 = b / 100 ∧ (a % 100 < b % 100 ∨ (a % 100 = b % 100 ∧ p))))
      ↔ (a < b ∨ (a = b ∧ p)) := by
  constructor
  · rintro (h | ⟨h1, h2 | ⟨h2, hp⟩⟩)
    · left; omega
    · left; omega
    · right; exact ⟨by omega, hp⟩
  · rintro (h | ⟨rfl, hp⟩)
    · by_cases h2 : a / 100 < b / 100
      · exact Or.inl h2
      · exact Or.inr ⟨by omega, Or.inl (by omega)⟩
    · exact Or.inr ⟨rfl, Or.inr ⟨rfl, hp⟩⟩

theorem byteLe_pad2_iff (a b : Nat) (ha : a ≤ 99) (hb : b ≤ 99) (r s : List Char) :
    byteLe (pad2 a ++ r) (pad2 b ++ s) = true
      ↔ (a < b ∨ (a = b ∧ byteLe r s = true)) := by
  have h1 := dChar_toNat (a / 10) (by omega)
  have h2 := dChar_toNat (b / 10) (by omega)
  have h3 := dChar_toNat (a % 10) (by omega)
  have h4 := dChar_toNat (b % 10) (by omega)
  simp only [pad2, List.cons_append, List.nil_append, byteLe, h1, h2, h3, h4,
    Bool.or_eq_true, Bool.and_eq_true, decide_eq_true_eq, beq_iff_eq]
  constructor
  · rintro (h | ⟨hx1, h | ⟨hx2, hp⟩⟩)
    · left; omega
    · left; omega
    · right; exact ⟨by omega, hp⟩
  · rintro (h | ⟨rfl, hp⟩)
    · by_cases h2 : a / 10 < b / 10
      · left; omega
      · right; exact ⟨by omega, Or.inl (by omega)⟩
    · exact Or.inr ⟨rfl, Or.inr ⟨rfl, hp⟩⟩

theorem byteLe_cons_same (c : Char) (r s : List Char) :
    byteLe (c :: r) (c :: s) = byteLe r s := by
  simp [byteLe]

theorem monthLen_le (L : Bool) (m : Nat) : monthLen L m ≤ 31 := by
  unfold monthLen
  split <;> first | omega | (split <;> omega)

/-- Byte order on canonical ISO date strings is chronological order. -/
theorem byteLe_iso_iff (t u : Date) (ht : validDate t) (hu : validDate u)
    (hty : t.y ≤ 9999) (huy : u.y ≤ 9999) :
    byteLe (isoChars t) (isoChars u) = true ↔ rataDie t ≤ rataDie u := by
  have htb := ht
  have hub := hu
  obtain ⟨hty1, htm1, htm2, htd1, htd2⟩ := htb
  obtain ⟨huy1, hum1, hum2, hud1, hud2⟩ := hub
  have htd3 : t.d ≤ 31 := le_trans htd2 (monthLen_le _ _)
  have hud3 : u.d ≤ 31 := le_trans hud2 (monthLen_le _ _)
  rw [isoChars, isoChars]
  rw [byteLe_pad2_iff (t.y / 100) (u.y / 100) (by omega) (by omega)]
  rw [byteLe_pad2_iff (t.y % 100) (u.y % 100) (by omega) (by omega)]
  rw [byteLe_cons_same]
  rw [byteLe_pad2_iff t.m u.m (by omega) (by omega)]
  rw [byteLe_cons_same]
  rw [byteLe_pad2_iff t.d u.d (by omega) (by omega)]
  rw [show (byteLe [] [] = true) ↔ True by simp [byteLe]]
  rw [hundreds_lex t.y u.y hty huy]
  constructor
  · rintro (h | ⟨hy, h | ⟨hm, h | ⟨hd, _⟩⟩⟩)
    · exact le_of_lt (rataDie_lt_of_lex t u ht hu (Or.inl h))
    · exact le_of_lt (rataDie_lt_of_lex t u ht hu (Or.inr ⟨hy, Or.inl h⟩))
    · exact le_of_lt (rataDie_lt_of_lex t u ht hu (Or.inr ⟨hy, Or.inr ⟨hm, h⟩⟩))
    · have : t = u := by cases t; cases u; simp_all
      rw [this]
  · intro hle
    by_contra hc
    have hrev : u.y < t.y ∨ (u.y = t.y ∧ (u.m < t.m ∨ (u.m = t.m ∧ u.d < t.d))) := by
      rcases Nat.lt_trichotomy t.y u.y with h1 | h1 | h1
      · exact absurd (Or.inl h1) hc
      · rcases Nat.lt_trichotomy t.m u.m with h2 | h2 | h2
        · exact absurd (Or.inr ⟨h1, Or.inl h2⟩) hc
        · rcases Nat.lt_trichotomy t.d u.d with h3 | h3 | h3
          · exact absurd (Or.inr ⟨h1, Or.inr ⟨h2, Or.inl h3⟩⟩) hc
          · exact absurd (Or.inr ⟨h1, Or.inr ⟨h2, Or.inr ⟨h3, trivial⟩⟩⟩) hc
          · exact Or.inr ⟨h1.symm, Or.inr ⟨h2.symm, h3⟩⟩
        · exact Or.inr ⟨h1.symm, Or.inl h2⟩
      · exact Or.inl h1
    have := rataDie_lt_of_lex u t hu ht hrev
    omega

theorem strLe_iso_iff (t u : Date) (ht : validDate t) (hu : validDate u)
    (hty : t.y ≤ 9999) (huy : u.y ≤ 9999) :
    strLe (isoStr t) (isoStr u) = true ↔ rataDie t ≤ rataDie u :=
  byteLe_iso_iff t u ht hu hty huy

theorem year_le_of_rataDie_le (t u : Date) (ht : validDate t) (hu : validDate u)
    (h : rataDie t ≤ rataDie u) : t.y ≤ u.y := by
  by_contra hc
  push_neg at hc
  have := rataDie_lt_of_lex u t hu ht (Or.inl hc)
  omega

/-! ## Claim C8: the calendar "has data" overlay -/

theorem monthOffset_twelve (L : Bool) :
    monthOffset L 12 = 334 + (if L then 1 else 0) := by
  cases L <;> rfl

theorem calendarHasData_eq (db : DB) (bid : Int) (y m : Nat)
    (hy : 1 ≤ y) (hm1 : 1 ≤ m) (hm2 : m ≤ 12) :
    calendarHasData db bid y m =
      ((db.spiderlog.filter (fun r =>
        strLe (isoStr (monthGridStart y m)) r.day
        && strLe r.day (isoStr (gridEnd y m))
        && db.spiders.any (fun s => s.id == r.spider_id && s.batch_id == bid))).map
          (·.day)).dedup := by
  obtain ⟨w0, hw0, hw0h⟩ := monthGrid_head_head y m hy hm1 hm2
  obtain ⟨wl, hwl, hwll⟩ := monthGrid_last_last y m hy hm1 hm2
  unfold calendarHasData
  rw [hw0, hwl]
  dsimp only
  rw [hw0h, hwll]

/-- Claim C8 as amended.  When every stored day string is in canonical
zero-padded ISO form, each "has data" day the calendar view computes —
a distinct spiderlog day string lying `BETWEEN` the grid's first and
last ISO dates and belonging to a spider of the batch — is the ISO
string of a date of the displayed grid.  (Without the canonical-form
restriction the claim fails; see the counterexample.) -/
theorem c8_has_data_in_grid (db : DB) (bid : Int) (y m : Nat)
    (hy : 1 ≤ y) (hy2 : y ≤ 9998) (hm1 : 1 ≤ m) (hm2 : m ≤ 12)
    (hne : ¬ (y = 1 ∧ m = 1))
    (hcanon : ∀ r ∈ db.spiderlog, ∃ t : Date, validDate t ∧ t.y ≤ 9999 ∧ r.day = isoStr t) :
    ∀ s ∈ calendarHasData db bid y m, ∃ t ∈ monthGridDates y m, isoStr t = s := by
  intro s hs
  rw [calendarHasData_eq db bid y m hy hm1 hm2] at hs
  rw [List.mem_dedup] at hs
  rcases List.mem_map.mp hs with ⟨r, hrf, rfl⟩
  rcases List.mem_filter.mp hrf with ⟨hrmem, hpred⟩
  simp only [Bool.and_eq_true] at hpred
  obtain ⟨⟨hle1, hle2⟩, _⟩ := hpred
  rcases hcanon r hrmem with ⟨t0, ht0v, ht0y, hday⟩
  obtain ⟨hsv, hsr, hs7⟩ := monthGridStart_spec y m hy hm1 hm2 hne
  obtain ⟨hev, her⟩ := gridEnd_rataDie y m hy hm1 hm2 hne
  have h7 := monthGridLen_ge y m hy hm1 hm2
  have hval1 : validDate ⟨y, m, 1⟩ := by
    rw [validDate_mk]
    exact ⟨hy, hm1, hm2, le_refl 1, monthLen_pos _ m hm1 hm2⟩
  have hys : (monthGridStart y m).y ≤ 9999 := by
    have hyy : (monthGridStart y m).y ≤ y :=
      year_le_of_rataDie_le _ ⟨y, m, 1⟩ hsv hval1 (by rw [hsr]; omega)
    omega
  have hnd1 : 1 ≤ daysInMonth y m := monthLen_pos _ m hm1 hm2
  have hvnd : validDate ⟨y, m, daysInMonth y m⟩ := by
    rw [validDate_mk]
    exact ⟨hy, hm1, hm2, hnd1, le_refl _⟩
  have hv1231 : validDate ⟨y, 12, 31⟩ := by
    rw [validDate_mk]
    refine ⟨hy, by omega, le_refl _, by omega, ?_⟩
    rw [monthLen_dec]
  have hvnext : validDate ⟨y + 1, 12, 31⟩ := by
    rw [validDate_mk]
    refine ⟨by omega, by omega, le_refl _, by omega, ?_⟩
    rw [monthLen_dec]
  have hnd : rataDie ⟨y, m, daysInMonth y m⟩ ≤ rataDie ⟨y, 12, 31⟩ := by
    by_cases hm12 : m = 12
    · subst hm12
      unfold daysInMonth
      rw [monthLen_dec]
    · refine le_of_lt (rataDie_lt_of_lex _ _ hvnd hv1231 ?_)
      exact Or.inr ⟨rfl, Or.inl (show m < 12 by omega)⟩
  have hstep : rataDie ⟨y, 12, 31⟩ + 7 ≤ rataDie ⟨y + 1, 12, 31⟩ := by
    have e1 := rataDie_mk y 12 31
    have e2 := rataDie_mk (y + 1) 12 31
    have e3 := daysBeforeYear_succ y hy
    have e4 := monthOffset_twelve (isLeap y)
    have e5 := monthOffset_twelve (isLeap (y + 1))
    rw [e1, e2, e3, e4, e5]
    omega
  have hre : rataDie (gridEnd y m) ≤ rataDie ⟨y, m, daysInMonth y m⟩ + 6 := by
    have hexpand := monthGridLen_expand y m
    have hafter := gridAfter_lt y m
    have hge := first_rataDie_ge y m hy hm1 hm2 hne
    have hblt := gridBefore_lt y m
    have e1 := rataDie_mk y m 1
    have e2 := rataDie_mk y m (daysInMonth y m)
    omega
  have hye : (gridEnd y m).y ≤ 9999 := by
    have hyy : (gridEnd y m).y ≤ y + 1 :=
      year_le_of_rataDie_le _ ⟨y + 1, 12, 31⟩ hev hvnext (by omega)
    omega
  rw [hday] at hle1 hle2
  have h1 : rataDie (monthGridStart y m) ≤ rataDie t0 :=
    (strLe_iso_iff _ _ hsv ht0v hys ht0y).mp hle1
  have h2 : rataDie t0 ≤ rataDie (gridEnd y m) :=
    (strLe_iso_iff _ _ ht0v hev ht0y hye).mp hle2
  exact ⟨t0, monthGridDates_mem y m hy hm1 hm2 hne t0 ht0v h1 (by omega), hday.symm⟩

/-- Store with one log row written by the single-spider route for the
non-padded day `"2024-2-15"`, which `strptime` accepts. -/
def dbSloppy : DB := (save_spiderlog dbOne 1 "2024-2-15" { fed := some "yes" }).1

set_option maxRecDepth 20000 in
/-- Counterexample to claim C8.  `save_spiderlog` accepts the
well-formed but non-padded day `"2024-2-15"`; SQLite's lexicographic
`BETWEEN` places that string inside the December 2024 span
`["2024-12-01", "2025-01-04"]`, so the calendar view for December 2024
reports it as a "has data" day, yet it is not the ISO string of any date
of that grid — nor is Feb 15, 2024 one of the grid's dates. -/
theorem c8_counterexample :
    (parseDay "2024-2-15").isSome = true
    ∧ "2024-2-15" ∈ calendarHasData dbSloppy 1 2024 12
    ∧ (∀ t ∈ monthGridDates 2024 12, isoStr t ≠ "2024-2-15")
    ∧ (⟨2024, 2, 15⟩ : Date) ∉ monthGridDates 2024 12 := by
  exact ⟨by decide, by decide, by decide, by decide⟩

/-- Store with one canonically-dated log row. -/
def dbCanon : DB := (save_spiderlog dbOne 1 "2024-05-01" { fed := some "yes" }).1

set_option maxRecDepth 20000 in
theorem c8_has_data_in_grid_witness :
    ((1 : Nat) ≤ 2024 ∧ (2024 : Nat) ≤ 9998 ∧ (1 : Nat) ≤ 5 ∧ (5 : Nat) ≤ 12
      ∧ ¬ ((2024 : Nat) = 1 ∧ (5 : Nat) = 1)
      ∧ (∀ r ∈ dbCanon.spiderlog,
          ∃ t : Date, validDate t ∧ t.y ≤ 9999 ∧ r.day = isoStr t))
    ∧ (∀ s ∈ calendarHasData dbCanon 1 2024 5,
        ∃ t ∈ monthGridDates 2024 5, isoStr t = s)
    ∧ "2024-05-01" ∈ calendarHasData dbCanon 1 2024 5 := by
  have hcanon : ∀ r ∈ dbCanon.spiderlog,
      ∃ t : Date, validDate t ∧ t.y ≤ 9999 ∧ r.day = isoStr t := by
    intro r hr
    rw [show dbCanon.spiderlog = [logRowOf 1 "2024-05-01" { fed := some "yes" }]
      from by decide] at hr
    rcases List.mem_singleton.mp hr with rfl
    exact ⟨⟨2024, 5, 1⟩, by decide, by decide, by decide⟩
  exact ⟨⟨by decide, by decide, by decide, by decide, by decide, hcanon⟩,
    c8_has_data_in_grid dbCanon 1 2024 5 (by decide) (by decide) (by decide)
      (by decide) (by decide) hcanon,
    by decide⟩
